import Mathlib

/-!
# A verification development for the `circuit-compiler` pipeline

This file gives a shallow embedding, in Lean 4, of the core pipeline of the
`circuit-compiler` repository (an arithmetic-DSL-to-R1CS compiler written in
Rust): SSA construction (`src/ssa.rs`), the constant folder and dead code
eliminator (`src/optimizer.rs`), circuit synthesis and R1CS lowering
(`src/circuit.rs`), and the witness calculator (`src/witness.rs`).

Modelling conventions:
* Rust `i32` values are modelled as `Int`.  Overflow behaviour is explicitly
  left implementation-defined by the design notes, and no property below
  depends on it; every concrete computation stays far inside the `i32` range.
* Rust `HashMap`/`HashSet` are modelled as association lists with
  first-match lookup (all observable behaviour of the maps in this code base
  is via `get`/`insert`/`contains`) and as `Finset`s respectively.
* `Vec::push` is modelled as appending at the end of a `List`, `Vec::pop` as
  removing the last element.
* A Rust panic (`expect`) is modelled as `Option.none`.
* The `Stmt` type: the snapshot's `ast.rs` lists only the `Let` and `Return`
  variants, but `parser.rs` constructs and `ssa.rs` exhaustively matches the
  variants `PublicInput { name }`, `PrivateInput { name }`,
  `ConstDecl { name, value }`, `Let { name, expr }`, `Return(expr)`; the
  embedding uses that five-variant shape, reconstructed from those use sites.
* `SsaInstruction` is taken from its defining site `ssa.rs` (three variants:
  `Const`, `Add`, `Mul`; this matches every `match` in `optimizer.rs`).  The
  `SsaInstruction::Assert` arm appearing in `circuit.rs` refers to a variant
  that does not exist in this snapshot and is therefore unreachable dead
  code; it is not modelled.  `Gate::Assert` (from `circuit.rs`) *is* a real
  variant and is modelled, including its R1CS lowering.
-/

namespace CircuitCompiler

/-- First-match lookup in an association list; models `HashMap::get`. -/
def alookup {α β : Type} [DecidableEq α] : List (α × β) → α → Option β
  | [], _ => none
  | (k, v) :: rest, k' => if k = k' then some v else alookup rest k'

/-! ## AST (`src/ast.rs`, variants completed from `src/parser.rs`/`src/ssa.rs`) -/

/-- Expressions of the DSL (`Expr` in `ast.rs`). -/
inductive Expr : Type
  | var (name : String)
  | lit (n : Int)
  | add (l r : Expr)
  | mul (l r : Expr)
deriving DecidableEq, Repr

/-- Statements of the DSL (`Stmt`); see the file header for provenance. -/
inductive Stmt : Type
  | publicInput (name : String)
  | privateInput (name : String)
  | constDecl (name : String) (value : Int)
  | letStmt (name : String) (e : Expr)
  | ret (e : Expr)
deriving DecidableEq, Repr

/-- Struct `Program` in `ast.rs`. -/
structure Program : Type where
  statements : List Stmt
deriving DecidableEq, Repr

/-! ## SSA form (`src/ssa.rs`) -/

/-- Struct `SsaValue`: identity is the `(name, version)` pair. -/
structure SsaValue : Type where
  name : String
  version : Nat
deriving DecidableEq, Repr

/-- Enum `SsaInstruction` exactly as declared in `ssa.rs`. -/
inductive SsaInstruction : Type
  | const (dest : SsaValue) (value : Int)
  | add (dest l r : SsaValue)
  | mul (dest l r : SsaValue)
deriving DecidableEq, Repr

/-- Struct `SsaProgram` in `ssa.rs`. -/
structure SsaProgram : Type where
  instructions : List SsaInstruction
  return_value : SsaValue
  public_inputs : List SsaValue
  private_inputs : List SsaValue
deriving DecidableEq, Repr

/-- The builder state of `SsaBuilder` in `ssa.rs`. -/
structure SsaBuilder : Type where
  instructions : List SsaInstruction
  var_versions : List (String × Nat)
  temp_counter : Nat
  public_inputs : List SsaValue
  private_inputs : List SsaValue
deriving DecidableEq, Repr

namespace SsaBuilder

/-- Function `SsaBuilder::new`. -/
def init : SsaBuilder := ⟨[], [], 0, [], []⟩

/-- Function `SsaBuilder::new_temp`: fresh `t{n}` value with version 0. -/
def newTemp (b : SsaBuilder) : SsaValue × SsaBuilder :=
  (⟨"t" ++ toString b.temp_counter, 0⟩, { b with temp_counter := b.temp_counter + 1 })

/-- Function `SsaBuilder::next_variable_version`: bump (or create at 1) the version
counter for `name` and return the new version. -/
def nextVariableVersion (b : SsaBuilder) (name : String) : Nat × SsaBuilder :=
  let v := (alookup b.var_versions name).getD 0 + 1
  (v, { b with var_versions := (name, v) :: b.var_versions })

/-- Function `SsaBuilder::convert_expr`: lower an expression, appending instructions;
a variable read emits nothing and resolves to the current version
(defaulting to version 0 when the name was never assigned). -/
def convertExpr (b : SsaBuilder) : Expr → SsaBuilder × SsaValue
  | .lit n =>
      let t := b.newTemp
      ({ t.2 with instructions := t.2.instructions ++ [SsaInstruction.const t.1 n] }, t.1)
  | .var name => (b, ⟨name, (alookup b.var_versions name).getD 0⟩)
  | .add l r =>
      let pl := b.convertExpr l
      let pr := pl.1.convertExpr r
      let t := pr.1.newTemp
      ({ t.2 with instructions :=
          t.2.instructions ++ [SsaInstruction.add t.1 pl.2 pr.2] }, t.1)
  | .mul l r =>
      let pl := b.convertExpr l
      let pr := pl.1.convertExpr r
      let t := pr.1.newTemp
      ({ t.2 with instructions :=
          t.2.instructions ++ [SsaInstruction.mul t.1 pl.2 pr.2] }, t.1)

/-- Destination rewriting used by the `ConstDecl`/`Let` arms of
`SsaBuilder::convert` (the pop/patch/push idiom). -/
def patchDest (v : SsaValue) : SsaInstruction → SsaInstruction
  | .const _ n => .const v n
  | .add _ l r => .add v l r
  | .mul _ l r => .mul v l r

/-- The pop/patch/push dance of the `ConstDecl` and `Let` arms of
`SsaBuilder::convert`: if the instruction list is non-empty, pop its last
instruction and push it back with its destination rewritten to `v`
(`if let Some(last_instr) = self.instructions.pop()`). -/
def patchLast (instrs : List SsaInstruction) (v : SsaValue) : List SsaInstruction :=
  match instrs.getLast? with
  | none => instrs
  | some last => instrs.dropLast ++ [patchDest v last]

/-- One step of the statement loop in `SsaBuilder::convert`; carries the
current `return_value` option alongside the builder. -/
def convertStmt (b : SsaBuilder) (r : Option SsaValue) :
    Stmt → SsaBuilder × Option SsaValue
  | .publicInput name =>
      let t := b.nextVariableVersion name
      ({ t.2 with public_inputs := t.2.public_inputs ++ [⟨name, t.1⟩] }, r)
  | .privateInput name =>
      let t := b.nextVariableVersion name
      ({ t.2 with private_inputs := t.2.private_inputs ++ [⟨name, t.1⟩] }, r)
  | .constDecl name value =>
      let t := b.newTemp
      let b₂ := { t.2 with instructions :=
        t.2.instructions ++ [SsaInstruction.const t.1 value] }
      let u := b₂.nextVariableVersion name
      ({ u.2 with instructions := patchLast u.2.instructions ⟨name, u.1⟩ }, r)
  | .letStmt name e =>
      let p := b.convertExpr e
      let u := p.1.nextVariableVersion name
      ({ u.2 with instructions := patchLast u.2.instructions ⟨name, u.1⟩ }, r)
  | .ret e =>
      let p := b.convertExpr e
      (p.1, some p.2)

/-- The statement loop of `SsaBuilder::convert`. -/
def convertLoop (b : SsaBuilder) (r : Option SsaValue) :
    List Stmt → SsaBuilder × Option SsaValue
  | [] => (b, r)
  | s :: rest =>
      let t := b.convertStmt r s
      convertLoop t.1 t.2 rest

/-- Function `SsaBuilder::convert` on a fresh builder (`SsaBuilder::new().convert(p)`).
The Rust code panics (`expect`) when no `Return` statement set the return
value; the panic is modelled as `none`. -/
def convert (p : Program) : Option SsaProgram :=
  let t := convertLoop init none p.statements
  t.2.map fun rv =>
    { instructions := t.1.instructions
      return_value := rv
      public_inputs := t.1.public_inputs
      private_inputs := t.1.private_inputs }

end SsaBuilder

/-! ## Optimizer (`src/optimizer.rs`) -/

namespace ConstantFolder

/-- The `constants : HashMap<SsaValue, i32>` state of `ConstantFolder`;
`record_constant` (= `insert`, overwriting) is modelled by prepending, which
has the same `get` behaviour under first-match lookup. -/
abbrev ConstMap := List (SsaValue × Int)

/-- Function `ConstantFolder::try_fold_instruction`, returning the updated constants
map together with the (possibly rewritten) instruction. -/
def tryFoldInstruction (m : ConstMap) : SsaInstruction → ConstMap × SsaInstruction
  | .const dest value => ((dest, value) :: m, .const dest value)
  | .add dest l r =>
      match alookup m l, alookup m r with
      | some lv, some rv => ((dest, lv + rv) :: m, .const dest (lv + rv))
      | _, _ => (m, .add dest l r)
  | .mul dest l r =>
      match alookup m l, alookup m r with
      | some lv, some rv => ((dest, lv * rv) :: m, .const dest (lv * rv))
      | _, _ => (m, .mul dest l r)

/-- The instruction loop of `ConstantFolder::optimize` (pushes the folded
instructions in order). -/
def foldInstrs (m : ConstMap) : List SsaInstruction → List SsaInstruction
  | [] => []
  | i :: rest =>
      let t := tryFoldInstruction m i
      t.2 :: foldInstrs t.1 rest

/-- The constants map after the loop has processed a list of instructions. -/
def foldState (m : ConstMap) : List SsaInstruction → ConstMap
  | [] => m
  | i :: rest => foldState (tryFoldInstruction m i).1 rest

/-- Function `ConstantFolder::optimize`. -/
def optimize (p : SsaProgram) : SsaProgram :=
  { instructions := foldInstrs [] p.instructions
    return_value := p.return_value
    public_inputs := p.public_inputs
    private_inputs := p.private_inputs }

end ConstantFolder

namespace DeadCodeEliminator

/-- Function `DeadCodeEliminator::get_destination`. -/
def getDestination : SsaInstruction → SsaValue
  | .const dest _ => dest
  | .add dest _ _ => dest
  | .mul dest _ _ => dest

/-- Function `DeadCodeEliminator::get_inputs`. -/
def getInputs : SsaInstruction → List SsaValue
  | .const _ _ => []
  | .add _ l r => [l, r]
  | .mul _ l r => [l, r]

/-- One full scan of the forward (input-dependence) loop body: for each
instruction in order, if any operand is in the set, insert the destination
(insertions are visible within the same scan, as in the Rust loop). -/
def fwdScan : List SsaInstruction → Finset SsaValue → Finset SsaValue
  | [], s => s
  | i :: rest, s =>
      fwdScan rest (if ∃ v ∈ getInputs i, v ∈ s then insert (getDestination i) s else s)

/-- One full scan of the backward (liveness) loop body: for each instruction
in order, if the destination is in the set, insert all operands. -/
def bwdScan : List SsaInstruction → Finset SsaValue → Finset SsaValue
  | [], s => s
  | i :: rest, s =>
      bwdScan rest (if getDestination i ∈ s then s ∪ (getInputs i).toFinset else s)

/-- The `while changed` fixpoint driver shared by both loops of
`DeadCodeEliminator::eliminate`.  Since each scan only inserts (never
removes), a scan reports `changed = false` exactly when it returns its input
set unchanged; the loop is run with enough fuel to reach that fixpoint (the
fuel bound is proved sufficient in `loopFix_fixpoint` below, mirroring the
termination argument of the design: each productive scan grows the set
inside a fixed finite pool). -/
def loopFix (f : Finset SsaValue → Finset SsaValue) :
    Nat → Finset SsaValue → Finset SsaValue
  | 0, s => s
  | n + 1, s => if f s = s then s else loopFix f n (f s)

/-- All destinations of a list of instructions (the pool the forward loop
can draw new elements from). -/
def destPool (insts : List SsaInstruction) : Finset SsaValue :=
  (insts.map getDestination).toFinset

/-- All operands of a list of instructions (the pool the backward loop can
draw new elements from). -/
def inputPool (insts : List SsaInstruction) : Finset SsaValue :=
  (insts.flatMap getInputs).toFinset

/-- The seed of both loops: every declared public and private input. -/
def inputSeed (p : SsaProgram) : Finset SsaValue :=
  (p.public_inputs ++ p.private_inputs).toFinset

/-- The `input_dependent` set at the end of phase 1 of
`DeadCodeEliminator::eliminate`. -/
def inputDependent (p : SsaProgram) : Finset SsaValue :=
  loopFix (fwdScan p.instructions)
    ((destPool p.instructions \ inputSeed p).card + 1) (inputSeed p)

/-- The `used_values` set at the end of phase 2 of
`DeadCodeEliminator::eliminate`: inputs and the return value are seeded,
the whole `input_dependent` set is unioned in, then the backward liveness
loop runs to a fixpoint. -/
def usedValues (p : SsaProgram) : Finset SsaValue :=
  loopFix (bwdScan p.instructions)
    ((inputPool p.instructions \
      (insert p.return_value (inputSeed p) ∪ inputDependent p)).card + 1)
    (insert p.return_value (inputSeed p) ∪ inputDependent p)

/-- Function `DeadCodeEliminator::eliminate`: retain exactly the instructions whose
destination is in `used_values`. -/
def eliminate (p : SsaProgram) : SsaProgram :=
  { instructions :=
      p.instructions.filter fun i => decide (getDestination i ∈ usedValues p)
    return_value := p.return_value
    public_inputs := p.public_inputs
    private_inputs := p.private_inputs }

end DeadCodeEliminator

/-! ## Circuit synthesis and R1CS lowering (`src/circuit.rs`) -/

/-- Struct `Wire`: identity is a dense zero-based id. -/
structure Wire : Type where
  id : Nat
deriving DecidableEq, Repr

/-- Enum `Gate` in `circuit.rs` (four variants, including `Assert`). -/
inductive Gate : Type
  | const (output : Wire) (value : Int)
  | add (output left right : Wire)
  | mul (output left right : Wire)
  | assert (output left right : Wire)
deriving DecidableEq, Repr

/-- Struct `Circuit` in `circuit.rs`. -/
structure Circuit : Type where
  public_inputs : List (String × Wire)
  private_inputs : List (String × Wire)
  gates : List Gate
  output_wire : Wire
deriving DecidableEq, Repr

/-- Struct `R1csConstraint`: three dense coefficient vectors. -/
structure R1csConstraint : Type where
  a : List Int
  b : List Int
  c : List Int
deriving DecidableEq, Repr

/-- Struct `R1csSystem` in `circuit.rs`. -/
structure R1csSystem : Type where
  num_constraints : Nat
  num_variables : Nat
  constraints : List R1csConstraint
  public_inputs : List (String × Nat)
  private_inputs : List (String × Nat)
  output_wire : Nat
deriving DecidableEq, Repr

/-- The builder state of `CircuitBuilder`. -/
structure CircuitBuilder : Type where
  gates : List Gate
  wire_counter : Nat
  ssa_to_wire : List (SsaValue × Wire)
  public_inputs : List (String × Wire)
  private_inputs : List (String × Wire)
deriving DecidableEq, Repr

namespace CircuitBuilder

/-- Function `CircuitBuilder::new`. -/
def init : CircuitBuilder := ⟨[], 0, [], [], []⟩

/-- Function `CircuitBuilder::new_wire`. -/
def newWire (b : CircuitBuilder) : Wire × CircuitBuilder :=
  (⟨b.wire_counter⟩, { b with wire_counter := b.wire_counter + 1 })

/-- Function `CircuitBuilder::get_or_create_wire`: look the value up in
`ssa_to_wire`, allocating (and recording) a fresh wire exactly when it is
absent.  The `HashMap` is modelled as an association list extended at the
end; since a key is only ever inserted when absent, lookup agrees with the
Rust map. -/
def getOrCreateWire (b : CircuitBuilder) (v : SsaValue) : Wire × CircuitBuilder :=
  match alookup b.ssa_to_wire v with
  | some w => (w, b)
  | none =>
      let t := b.newWire
      (t.1, { t.2 with ssa_to_wire := t.2.ssa_to_wire ++ [(v, t.1)] })

/-- Function `CircuitBuilder::convert_instruction` (the `SsaInstruction::Assert` arm
of the Rust source matches a variant that does not exist in `ssa.rs` and is
dead code; see the file header).  The order of `get_or_create_wire` calls
(destination first, then left, then right) matches the source. -/
def convertInstruction (b : CircuitBuilder) : SsaInstruction → CircuitBuilder
  | .const dest value =>
      let d := b.getOrCreateWire dest
      { d.2 with gates := d.2.gates ++ [Gate.const d.1 value] }
  | .add dest l r =>
      let d := b.getOrCreateWire dest
      let lt := d.2.getOrCreateWire l
      let rt := lt.2.getOrCreateWire r
      { rt.2 with gates := rt.2.gates ++ [Gate.add d.1 lt.1 rt.1] }
  | .mul dest l r =>
      let d := b.getOrCreateWire dest
      let lt := d.2.getOrCreateWire l
      let rt := lt.2.getOrCreateWire r
      { rt.2 with gates := rt.2.gates ++ [Gate.mul d.1 lt.1 rt.1] }

/-- The input-registration loop at the top of `CircuitBuilder::from_ssa`:
each declared input gets (or creates) its wire and is pushed, with its
name, onto the corresponding input list. -/
def registerInputs (b : CircuitBuilder) (isPublic : Bool) :
    List SsaValue → CircuitBuilder
  | [] => b
  | v :: rest =>
      let t := b.getOrCreateWire v
      let b₂ :=
        if isPublic then { t.2 with public_inputs := t.2.public_inputs ++ [(v.name, t.1)] }
        else { t.2 with private_inputs := t.2.private_inputs ++ [(v.name, t.1)] }
      registerInputs b₂ isPublic rest

/-- The instruction loop of `CircuitBuilder::from_ssa`. -/
def convertInstructions (b : CircuitBuilder) : List SsaInstruction → CircuitBuilder
  | [] => b
  | i :: rest => convertInstructions (b.convertInstruction i) rest

/-- Function `CircuitBuilder::from_ssa`, returning the built circuit together with
the final builder state (the Rust function returns only the circuit;
`fromSsa` below projects it out). -/
def runFromSsa (p : SsaProgram) : Circuit × CircuitBuilder :=
  let b₁ := registerInputs init true p.public_inputs
  let b₂ := registerInputs b₁ false p.private_inputs
  let b₃ := convertInstructions b₂ p.instructions
  let t := b₃.getOrCreateWire p.return_value
  (⟨t.2.public_inputs, t.2.private_inputs, t.2.gates, t.1⟩, t.2)

/-- Function `CircuitBuilder::from_ssa`. -/
def fromSsa (p : SsaProgram) : Circuit := (runFromSsa p).1

end CircuitBuilder

namespace Circuit

/-- The wire ids a gate mentions, in the order of `Circuit::to_r1cs`. -/
def gateWireIds : Gate → List Nat
  | .const output _ => [output.id]
  | .add output left right => [output.id, left.id, right.id]
  | .mul output left right => [output.id, left.id, right.id]
  | .assert output left right => [output.id, left.id, right.id]

/-- The `num_wires` computation of `Circuit::to_r1cs`: max referenced wire
id (gates, then inputs, then the output wire) plus one. -/
def numWires (c : Circuit) : Nat :=
  ((c.gates.flatMap gateWireIds
      ++ c.public_inputs.map (fun nw => nw.2.id)
      ++ c.private_inputs.map (fun nw => nw.2.id)
      ++ [c.output_wire.id]).max?).getD 0 + 1

/-- A zero vector of length `n` with the listed `(index, coefficient)`
updates applied in order; models the `vec![0; num_wires]` / `v[i] = k`
pattern of `to_r1cs` (repeated writes to one slot keep the last one, just
as in Rust). -/
def coeffVec (n : Nat) : List (Nat × Int) → List Int
  | [] => List.replicate n 0
  | (i, k) :: rest => (coeffVec n rest).set i k

/-- The constraint `to_r1cs` emits for one gate, given the vector width. -/
def gateConstraint (n : Nat) : Gate → R1csConstraint
  | .const output value =>
      ⟨coeffVec n [(0, 1)], coeffVec n [(0, value)], coeffVec n [(output.id, 1)]⟩
  | .mul output left right =>
      ⟨coeffVec n [(left.id, 1)], coeffVec n [(right.id, 1)], coeffVec n [(output.id, 1)]⟩
  | .add output left right =>
      ⟨coeffVec n [(right.id, 1), (left.id, 1)], coeffVec n [(0, 1)],
        coeffVec n [(output.id, 1)]⟩
  | .assert output left right =>
      ⟨coeffVec n [(right.id, -1), (left.id, 1)], coeffVec n [(0, 1)],
        coeffVec n [(output.id, 1)]⟩

/-- Function `Circuit::to_r1cs`. -/
def toR1cs (c : Circuit) : R1csSystem :=
  let n := c.numWires
  let constraints := c.gates.map (gateConstraint n)
  { num_constraints := constraints.length
    num_variables := n
    constraints := constraints
    public_inputs := c.public_inputs.map (fun nw => (nw.1, nw.2.id))
    private_inputs := c.private_inputs.map (fun nw => (nw.1, nw.2.id))
    output_wire := c.output_wire.id }

end Circuit

/-- The dot product `v · x` of a coefficient vector and a witness vector,
as used in the R1CS semantics `(a·x)*(b·x) = (c·x)`. -/
def dotL (v x : List Int) : Int := (List.zipWith (· * ·) v x).sum

/-! ## Witness calculation (`src/witness.rs`) -/

/-- Enum `WitnessError` in `witness.rs` (`MissingWireValue` carries the wire's
display string `w{id}` in the source; the wire itself is carried here). -/
inductive WitnessError : Type
  | missingPublicInput (name : String)
  | missingPrivateInput (name : String)
  | missingWireValue (w : Wire)
  | noPublicInputsProvided
  | noPrivateInputsProvided
deriving DecidableEq, Repr

/-- Struct `InputFile`: two optional name-to-integer maps.  The Rust field names
are `public` and `private`; `private` is a reserved word in Lean, so the
fields are named `publicVals`/`privateVals`. -/
structure InputFile : Type where
  publicVals : Option (List (String × Int))
  privateVals : Option (List (String × Int))
deriving DecidableEq, Repr

namespace WitnessCalculator

/-- The `wire_values : HashMap<Wire, i32>` state; `insert` (which
overwrites) is modelled by prepending under first-match lookup. -/
abbrev WireMap := List (Wire × Int)

/-- Function `WitnessCalculator::get_wire_value`. -/
def getWireValue (m : WireMap) (w : Wire) : Option Int := alookup m w

/-- The body of the public (resp. private) loop of
`WitnessCalculator::set_inputs`: bind each declared input in order, failing
on the first declared name with no matching entry. -/
def bindInputs (mkErr : String → WitnessError) (vals : List (String × Int))
    (m : WireMap) : List (String × Wire) → Except WitnessError WireMap
  | [] => .ok m
  | (name, w) :: rest =>
      match alookup vals name with
      | some value => bindInputs mkErr vals ((w, value) :: m) rest
      | none => .error (mkErr name)

/-- The public-input block of `WitnessCalculator::set_inputs` (executed
first). -/
def setPublicInputs (c : Circuit) (inputs : InputFile) (m : WireMap) :
    Except WitnessError WireMap :=
  match inputs.publicVals with
  | some vals => bindInputs WitnessError.missingPublicInput vals m c.public_inputs
  | none =>
      if c.public_inputs = [] then .ok m else .error .noPublicInputsProvided

/-- The private-input block of `WitnessCalculator::set_inputs` (executed
second). -/
def setPrivateInputs (c : Circuit) (inputs : InputFile) (m : WireMap) :
    Except WitnessError WireMap :=
  match inputs.privateVals with
  | some vals => bindInputs WitnessError.missingPrivateInput vals m c.private_inputs
  | none =>
      if c.private_inputs = [] then .ok m else .error .noPrivateInputsProvided

/-- Function `WitnessCalculator::set_inputs`: public block, then private block. -/
def setInputs (c : Circuit) (inputs : InputFile) (m : WireMap) :
    Except WitnessError WireMap :=
  match setPublicInputs c inputs m with
  | .error e => .error e
  | .ok m' => setPrivateInputs c inputs m'

/-- Modelled from the spec: the snapshot's `execute_gate` in `witness.rs`
has no arm for `Gate::Assert` (its `match` covers only `Const`, `Add` and
`Mul`), so the Assert behaviour is taken from spec §4.6: "`Assert` is
evaluated like the linear difference but its value is not itself checked
for zero by this component" — read both operand wires (failing with
`MissingWireValue` exactly as the other binary arms do) and write
`left - right` to the gate's output wire. -/
def executeAssert (m : WireMap) (output left right : Wire) :
    Except WitnessError WireMap :=
  match getWireValue m left with
  | none => .error (.missingWireValue left)
  | some lv =>
      match getWireValue m right with
      | none => .error (.missingWireValue right)
      | some rv => .ok ((output, lv - rv) :: m)

/-- Function `WitnessCalculator::execute_gate` (the `Gate::Assert` arm is
spec-modelled, see `executeAssert`). -/
def executeGate (m : WireMap) : Gate → Except WitnessError WireMap
  | .const output value => .ok ((output, value) :: m)
  | .add output left right =>
      match getWireValue m left with
      | none => .error (.missingWireValue left)
      | some lv =>
          match getWireValue m right with
          | none => .error (.missingWireValue right)
          | some rv => .ok ((output, lv + rv) :: m)
  | .mul output left right =>
      match getWireValue m left with
      | none => .error (.missingWireValue left)
      | some lv =>
          match getWireValue m right with
          | none => .error (.missingWireValue right)
          | some rv => .ok ((output, lv * rv) :: m)
  | .assert output left right => executeAssert m output left right

/-- The gate loop of `WitnessCalculator::calculate_witness` (executes gates
in list order, stopping at the first error). -/
def executeGates (m : WireMap) : List Gate → Except WitnessError WireMap
  | [] => .ok m
  | g :: rest =>
      match executeGate m g with
      | .error e => .error e
      | .ok m' => executeGates m' rest

/-- Function `WitnessCalculator::calculate_witness` on a fresh calculator
(`WitnessCalculator::new()` starts with an empty wire map): bind inputs,
execute every gate in order, then read the output wire. -/
def calculateWitness (c : Circuit) (inputs : InputFile) :
    Except WitnessError Int :=
  match setInputs c inputs [] with
  | .error e => .error e
  | .ok m =>
      match executeGates m c.gates with
      | .error e => .error e
      | .ok m' =>
          match getWireValue m' c.output_wire with
          | some v => .ok v
          | none => .error (.missingWireValue c.output_wire)

end WitnessCalculator

/-- Every `SsaValue` occurring anywhere in an `SsaProgram`: declared
inputs, every instruction's destination and operands, and the return
value. -/
def ssaValuesOf (p : SsaProgram) : List SsaValue :=
  p.public_inputs ++ p.private_inputs
    ++ p.instructions.flatMap
        (fun i => DeadCodeEliminator.getDestination i :: DeadCodeEliminator.getInputs i)
    ++ [p.return_value]

/-- The set of wire ids appearing anywhere in a `Circuit`: input wires,
every wire of every gate, and the output wire. -/
def Circuit.circuitWireIds (c : Circuit) : Finset Nat :=
  (c.public_inputs.map (fun nw => nw.2.id)).toFinset
    ∪ (c.private_inputs.map (fun nw => nw.2.id)).toFinset
    ∪ (c.gates.flatMap Circuit.gateWireIds).toFinset
    ∪ {c.output_wire.id}

namespace CircuitBuilder

/-- The wire ids recorded in the builder's `ssa_to_wire` map, in insertion
order. -/
def mapIds (b : CircuitBuilder) : List Nat := b.ssa_to_wire.map (fun vw => vw.2.id)

/-- The keys of the builder's `ssa_to_wire` map, in insertion order. -/
def mapKeys (b : CircuitBuilder) : List SsaValue := b.ssa_to_wire.map Prod.fst

/-- The wire ids already placed into the partial circuit (input lists and
gates). -/
def builderIds (b : CircuitBuilder) : Finset Nat :=
  (b.public_inputs.map (fun nw => nw.2.id)).toFinset
    ∪ (b.private_inputs.map (fun nw => nw.2.id)).toFinset
    ∪ (b.gates.flatMap Circuit.gateWireIds).toFinset

/-- The builder invariant: map wire ids are exactly `0, 1, …, counter-1`
in allocation order, no `SsaValue` has two map entries, and the ids placed
into the partial circuit are exactly the allocated range. -/
def Inv (b : CircuitBuilder) : Prop :=
  mapIds b = List.range b.wire_counter
    ∧ (mapKeys b).Nodup
    ∧ builderIds b = Finset.range b.wire_counter

end CircuitBuilder

/-! ## Lemmas about the dead-code-elimination fixpoint loops -/

namespace DeadCodeEliminator

/-- A set closed under the forward (input-dependence) propagation rule. -/
def FwdClosed (insts : List SsaInstruction) (T : Finset SsaValue) : Prop :=
  ∀ i ∈ insts, (∃ v ∈ getInputs i, v ∈ T) → getDestination i ∈ T

/-- A set closed under the backward (liveness) propagation rule. -/
def BwdClosed (insts : List SsaInstruction) (T : Finset SsaValue) : Prop :=
  ∀ i ∈ insts, getDestination i ∈ T → ∀ v ∈ getInputs i, v ∈ T

theorem fwdScan_subset (insts : List SsaInstruction) (s : Finset SsaValue) :
    s ⊆ fwdScan insts s := by
  induction insts generalizing s with
  | nil => exact Finset.Subset.refl s
  | cons i rest ih =>
      refine Finset.Subset.trans ?_ (ih _)
      split
      · exact Finset.subset_insert _ s
      · exact Finset.Subset.refl s

theorem bwdScan_subset (insts : List SsaInstruction) (s : Finset SsaValue) :
    s ⊆ bwdScan insts s := by
  induction insts generalizing s with
  | nil => exact Finset.Subset.refl s
  | cons i rest ih =>
      refine Finset.Subset.trans ?_ (ih _)
      split
      · exact Finset.subset_union_left
      · exact Finset.Subset.refl s

theorem fwdScan_mono (insts : List SsaInstruction) {s t : Finset SsaValue}
    (h : s ⊆ t) : fwdScan insts s ⊆ fwdScan insts t := by
  induction insts generalizing s t with
  | nil => exact h
  | cons i rest ih =>
      apply ih
      split
      · next hc =>
          obtain ⟨v, hv, hvs⟩ := hc
          have ht : ∃ v ∈ getInputs i, v ∈ t := ⟨v, hv, h hvs⟩
          rw [if_pos ht]
          exact Finset.insert_subset_insert _ h
      · split
        · exact Finset.Subset.trans h (Finset.subset_insert _ t)
        · exact h

theorem bwdScan_mono (insts : List SsaInstruction) {s t : Finset SsaValue}
    (h : s ⊆ t) : bwdScan insts s ⊆ bwdScan insts t := by
  induction insts generalizing s t with
  | nil => exact h
  | cons i rest ih =>
      apply ih
      split
      · next hc =>
          rw [if_pos (h hc)]
          exact Finset.union_subset_union h (Finset.Subset.refl _)
      · split
        · exact Finset.Subset.trans h Finset.subset_union_left
        · exact h

theorem fwdScan_pool (insts : List SsaInstruction) (s : Finset SsaValue) :
    fwdScan insts s ⊆ s ∪ destPool insts := by
  induction insts generalizing s with
  | nil => exact Finset.subset_union_left
  | cons i rest ih =>
      rw [fwdScan]
      refine Finset.Subset.trans (ih _) (Finset.union_subset ?_ ?_)
      · split
        · intro x hx
          rcases Finset.mem_insert.mp hx with h | h
          · subst h
            refine Finset.mem_union_right _ ?_
            simp [destPool]
          · exact Finset.mem_union_left _ h
        · exact Finset.subset_union_left
      · intro x hx
        refine Finset.mem_union_right _ ?_
        simp only [destPool, List.map_cons, List.toFinset_cons, Finset.mem_insert]
        right
        simpa [destPool] using hx

theorem bwdScan_pool (insts : List SsaInstruction) (s : Finset SsaValue) :
    bwdScan insts s ⊆ s ∪ inputPool insts := by
  induction insts generalizing s with
  | nil => exact Finset.subset_union_left
  | cons i rest ih =>
      rw [bwdScan]
      refine Finset.Subset.trans (ih _) (Finset.union_subset ?_ ?_)
      · split
        · refine Finset.union_subset Finset.subset_union_left ?_
          intro x hx
          refine Finset.mem_union_right _ ?_
          simp only [inputPool, List.flatMap_cons, List.toFinset_append, Finset.mem_union]
          exact Or.inl hx
        · exact Finset.subset_union_left
      · intro x hx
        refine Finset.mem_union_right _ ?_
        simp only [inputPool, List.flatMap_cons, List.toFinset_append, Finset.mem_union]
        right
        simpa [inputPool] using hx

theorem fwdScan_subset_of_closed {insts : List SsaInstruction}
    {s T : Finset SsaValue} (hs : s ⊆ T) (hT : FwdClosed insts T) :
    fwdScan insts s ⊆ T := by
  induction insts generalizing s with
  | nil => exact hs
  | cons i rest ih =>
      rw [fwdScan]
      refine ih ?_ (fun j hj => hT j (List.mem_cons_of_mem _ hj))
      split
      · next hc =>
          obtain ⟨v, hv, hvs⟩ := hc
          refine Finset.insert_subset ?_ hs
          exact hT i (List.mem_cons_self _ _) ⟨v, hv, hs hvs⟩
      · exact hs

theorem bwdScan_subset_of_closed {insts : List SsaInstruction}
    {s T : Finset SsaValue} (hs : s ⊆ T) (hT : BwdClosed insts T) :
    bwdScan insts s ⊆ T := by
  induction insts generalizing s with
  | nil => exact hs
  | cons i rest ih =>
      rw [bwdScan]
      refine ih ?_ (fun j hj => hT j (List.mem_cons_of_mem _ hj))
      split
      · next hc =>
          refine Finset.union_subset hs ?_
          intro v hv
          exact hT i (List.mem_cons_self _ _) (hs hc) v (List.mem_toFinset.mp hv)
      · exact hs

theorem fwdScan_mem_dest {insts : List SsaInstruction} {s : Finset SsaValue}
    {i : SsaInstruction} (hi : i ∈ insts) (hc : ∃ v ∈ getInputs i, v ∈ s) :
    getDestination i ∈ fwdScan insts s := by
  induction insts generalizing s with
  | nil => cases hi
  | cons j rest ih =>
      rw [fwdScan]
      rcases List.mem_cons.mp hi with h | h
      · subst h
        rw [if_pos hc]
        exact fwdScan_subset _ _ (Finset.mem_insert_self _ _)
      · refine ih h ?_
        obtain ⟨v, hv, hvs⟩ := hc
        refine ⟨v, hv, ?_⟩
        split
        · exact Finset.mem_insert_of_mem hvs
        · exact hvs

theorem bwdScan_mem_input {insts : List SsaInstruction} {s : Finset SsaValue}
    {i : SsaInstruction} {v : SsaValue} (hi : i ∈ insts)
    (hd : getDestination i ∈ s) (hv : v ∈ getInputs i) :
    v ∈ bwdScan insts s := by
  induction insts generalizing s with
  | nil => cases hi
  | cons j rest ih =>
      rw [bwdScan]
      rcases List.mem_cons.mp hi with h | h
      · subst h
        rw [if_pos hd]
        exact bwdScan_subset _ _
          (Finset.mem_union_right _ (List.mem_toFinset.mpr hv))
      · refine ih h ?_
        split
        · exact Finset.mem_union_left _ hd
        · exact hd

theorem loopFix_subset {f : Finset SsaValue → Finset SsaValue}
    (hinfl : ∀ s, s ⊆ f s) (n : Nat) (s : Finset SsaValue) :
    s ⊆ loopFix f n s := by
  induction n generalizing s with
  | zero => exact Finset.Subset.refl s
  | succ n ih =>
      rw [loopFix]
      split
      · exact Finset.Subset.refl s
      · exact Finset.Subset.trans (hinfl s) (ih _)

theorem loopFix_pool {f : Finset SsaValue → Finset SsaValue}
    {P : Finset SsaValue} (hpool : ∀ s, f s ⊆ s ∪ P) (n : Nat)
    (s : Finset SsaValue) : loopFix f n s ⊆ s ∪ P := by
  induction n generalizing s with
  | zero => exact Finset.subset_union_left
  | succ n ih =>
      rw [loopFix]
      split
      · exact Finset.subset_union_left
      · refine Finset.Subset.trans (ih _) (Finset.union_subset ?_ Finset.subset_union_right)
        exact hpool s

theorem loopFix_fixpoint {f : Finset SsaValue → Finset SsaValue}
    {P : Finset SsaValue} (hinfl : ∀ s, s ⊆ f s) (hpool : ∀ s, f s ⊆ s ∪ P)
    {n : Nat} {s : Finset SsaValue} (hn : (P \ s).card < n) :
    f (loopFix f n s) = loopFix f n s := by
  induction n generalizing s with
  | zero => omega
  | succ n ih =>
      rw [loopFix]
      split
      · next h => exact h
      · next h =>
          refine ih ?_
          have hss : s ⊂ f s := Finset.ssubset_iff_subset_ne.mpr ⟨hinfl s, fun hh => h hh.symm⟩
          obtain ⟨x, hxf, hxs⟩ := Finset.exists_of_ssubset hss
          have hxP : x ∈ P := by
            rcases Finset.mem_union.mp (hpool s hxf) with h' | h'
            · exact absurd h' hxs
            · exact h'
          have hlt : (P \ f s).card < (P \ s).card := by
            refine Finset.card_lt_card ?_
            refine Finset.ssubset_iff_of_subset
              (Finset.sdiff_subset_sdiff (Finset.Subset.refl P) (hinfl s)) |>.mpr ?_
            exact ⟨x, Finset.mem_sdiff.mpr ⟨hxP, hxs⟩,
              fun hmem => (Finset.mem_sdiff.mp hmem).2 hxf⟩
          omega

theorem loopFix_subset_of_closed {f : Finset SsaValue → Finset SsaValue}
    (hmono : ∀ {s t : Finset SsaValue}, s ⊆ t → f s ⊆ f t) {T : Finset SsaValue}
    (hTc : f T ⊆ T) (n : Nat) {s : Finset SsaValue} (hs : s ⊆ T) :
    loopFix f n s ⊆ T := by
  induction n generalizing s with
  | zero => exact hs
  | succ n ih =>
      rw [loopFix]
      split
      · exact hs
      · exact ih (Finset.Subset.trans (hmono hs) hTc)

/-! Properties of `inputDependent` and `usedValues` derived from the
generic loop lemmas. -/

theorem inputSeed_subset_inputDependent (p : SsaProgram) :
    inputSeed p ⊆ inputDependent p :=
  loopFix_subset (fwdScan_subset p.instructions) _ _

theorem inputDependent_closed (p : SsaProgram) :
    FwdClosed p.instructions (inputDependent p) := by
  intro i hi hc
  have hfix := loopFix_fixpoint (P := destPool p.instructions)
    (fwdScan_subset p.instructions) (fwdScan_pool p.instructions)
    (n := (destPool p.instructions \ inputSeed p).card + 1)
    (s := inputSeed p)
    (Nat.lt_succ_self _)
  have hmem := fwdScan_mem_dest hi hc
  unfold inputDependent at hmem ⊢
  rw [hfix] at hmem
  exact hmem

theorem inputDependent_le {p : SsaProgram} {T : Finset SsaValue}
    (hs : inputSeed p ⊆ T) (hT : FwdClosed p.instructions T) :
    inputDependent p ⊆ T :=
  loopFix_subset_of_closed (fun h => fwdScan_mono p.instructions h)
    (fwdScan_subset_of_closed (Finset.Subset.refl T) hT) _ hs

theorem usedValues_seed (p : SsaProgram) :
    insert p.return_value (inputSeed p) ∪ inputDependent p ⊆ usedValues p :=
  loopFix_subset (bwdScan_subset p.instructions) _ _

theorem usedValues_closed (p : SsaProgram) :
    BwdClosed p.instructions (usedValues p) := by
  intro i hi hd v hv
  have hfix := loopFix_fixpoint (P := inputPool p.instructions)
    (bwdScan_subset p.instructions) (bwdScan_pool p.instructions)
    (n := (inputPool p.instructions \
      (insert p.return_value (inputSeed p) ∪ inputDependent p)).card + 1)
    (s := insert p.return_value (inputSeed p) ∪ inputDependent p)
    (Nat.lt_succ_self _)
  have hmem := bwdScan_mem_input hi (s := usedValues p) hd hv
  unfold usedValues at hmem ⊢
  rw [hfix] at hmem
  exact hmem

theorem usedValues_le {p : SsaProgram} {T : Finset SsaValue}
    (hs : insert p.return_value (inputSeed p) ∪ inputDependent p ⊆ T)
    (hT : BwdClosed p.instructions T) : usedValues p ⊆ T :=
  loopFix_subset_of_closed (fun h => bwdScan_mono p.instructions h)
    (bwdScan_subset_of_closed (Finset.Subset.refl T) hT) _ hs

theorem usedValues_pool (p : SsaProgram) :
    usedValues p ⊆ (insert p.return_value (inputSeed p) ∪ inputDependent p)
      ∪ inputPool p.instructions :=
  loopFix_pool (bwdScan_pool p.instructions) _ _

theorem inputDependent_subset_usedValues (p : SsaProgram) :
    inputDependent p ⊆ usedValues p :=
  Finset.Subset.trans Finset.subset_union_right (usedValues_seed p)

end DeadCodeEliminator

/-! ## Supporting lemmas for the SSA builder -/

namespace SsaBuilder

theorem convertStmt_snd (b : SsaBuilder) (r : Option SsaValue) (s : Stmt) :
    (b.convertStmt r s).2 =
      match s with
      | .ret e => some (b.convertExpr e).2
      | _ => r := by
  cases s <;> rfl

theorem convertLoop_cons (b : SsaBuilder) (r : Option SsaValue) (s : Stmt)
    (rest : List Stmt) :
    convertLoop b r (s :: rest) =
      convertLoop (b.convertStmt r s).1 (b.convertStmt r s).2 rest := rfl

theorem convertLoop_snd_isSome (stmts : List Stmt) :
    ∀ (b : SsaBuilder) (r : Option SsaValue),
      ((convertLoop b r stmts).2).isSome
        ↔ r.isSome = true ∨ ∃ e, Stmt.ret e ∈ stmts := by
  induction stmts with
  | nil => simp [convertLoop]
  | cons s rest ih =>
      intro b r
      rw [convertLoop_cons, ih]
      have hs := convertStmt_snd b r s
      cases s with
      | ret e =>
          rw [hs]
          simp
      | publicInput name =>
          rw [hs]
          simp only [List.mem_cons]
          constructor
          · rintro (h | ⟨e, he⟩)
            · exact Or.inl h
            · exact Or.inr ⟨e, Or.inr he⟩
          · rintro (h | ⟨e, (he | he)⟩)
            · exact Or.inl h
            · cases he
            · exact Or.inr ⟨e, he⟩
      | privateInput name =>
          rw [hs]
          simp only [List.mem_cons]
          constructor
          · rintro (h | ⟨e, he⟩)
            · exact Or.inl h
            · exact Or.inr ⟨e, Or.inr he⟩
          · rintro (h | ⟨e, (he | he)⟩)
            · exact Or.inl h
            · cases he
            · exact Or.inr ⟨e, he⟩
      | constDecl name value =>
          rw [hs]
          simp only [List.mem_cons]
          constructor
          · rintro (h | ⟨e, he⟩)
            · exact Or.inl h
            · exact Or.inr ⟨e, Or.inr he⟩
          · rintro (h | ⟨e, (he | he)⟩)
            · exact Or.inl h
            · cases he
            · exact Or.inr ⟨e, he⟩
      | letStmt name e0 =>
          rw [hs]
          simp only [List.mem_cons]
          constructor
          · rintro (h | ⟨e, he⟩)
            · exact Or.inl h
            · exact Or.inr ⟨e, Or.inr he⟩
          · rintro (h | ⟨e, (he | he)⟩)
            · exact Or.inl h
            · cases he
            · exact Or.inr ⟨e, he⟩

theorem convertExpr_var_versions (e : Expr) :
    ∀ b : SsaBuilder, ((b.convertExpr e).1).var_versions = b.var_versions := by
  induction e with
  | var name => intro b; rfl
  | lit n => intro b; rfl
  | add l r ihl ihr =>
      intro b
      show ((((b.convertExpr l).1.convertExpr r).1).newTemp).2.var_versions = _
      rw [show ∀ b' : SsaBuilder, b'.newTemp.2.var_versions = b'.var_versions
        from fun _ => rfl]
      rw [ihr, ihl]
  | mul l r ihl ihr =>
      intro b
      show ((((b.convertExpr l).1.convertExpr r).1).newTemp).2.var_versions = _
      rw [show ∀ b' : SsaBuilder, b'.newTemp.2.var_versions = b'.var_versions
        from fun _ => rfl]
      rw [ihr, ihl]

theorem convertExpr_instructions_append (e : Expr) :
    ∀ b : SsaBuilder, ∃ tail,
      ((b.convertExpr e).1).instructions = b.instructions ++ tail := by
  induction e with
  | var name => intro b; exact ⟨[], by simp [convertExpr]⟩
  | lit n => intro b; exact ⟨_, rfl⟩
  | add l r ihl ihr =>
      intro b
      obtain ⟨t₁, h₁⟩ := ihl b
      obtain ⟨t₂, h₂⟩ := ihr (b.convertExpr l).1
      refine ⟨t₁ ++ t₂ ++ [SsaInstruction.add ((b.convertExpr l).1.convertExpr r).1.newTemp.1
        (b.convertExpr l).2 ((b.convertExpr l).1.convertExpr r).2], ?_⟩
      show ((b.convertExpr l).1.convertExpr r).1.instructions ++ _ = _
      rw [h₂, h₁]
      simp
  | mul l r ihl ihr =>
      intro b
      obtain ⟨t₁, h₁⟩ := ihl b
      obtain ⟨t₂, h₂⟩ := ihr (b.convertExpr l).1
      refine ⟨t₁ ++ t₂ ++ [SsaInstruction.mul ((b.convertExpr l).1.convertExpr r).1.newTemp.1
        (b.convertExpr l).2 ((b.convertExpr l).1.convertExpr r).2], ?_⟩
      show ((b.convertExpr l).1.convertExpr r).1.instructions ++ _ = _
      rw [h₂, h₁]
      simp

theorem convertExpr_nonvar_last (e : Expr) (he : ∀ n, e ≠ Expr.var n)
    (b : SsaBuilder) :
    ∃ mid instr,
      ((b.convertExpr e).1).instructions = b.instructions ++ mid ++ [instr]
      ∧ DeadCodeEliminator.getDestination instr = (b.convertExpr e).2 := by
  cases e with
  | var name => exact absurd rfl (he name)
  | lit n =>
      exact ⟨[], SsaInstruction.const b.newTemp.1 n, by simp [convertExpr, newTemp], rfl⟩
  | add l r =>
      obtain ⟨t₁, h₁⟩ := convertExpr_instructions_append l b
      obtain ⟨t₂, h₂⟩ := convertExpr_instructions_append r (b.convertExpr l).1
      refine ⟨t₁ ++ t₂, SsaInstruction.add ((b.convertExpr l).1.convertExpr r).1.newTemp.1
        (b.convertExpr l).2 ((b.convertExpr l).1.convertExpr r).2, ?_, rfl⟩
      show ((b.convertExpr l).1.convertExpr r).1.instructions ++ _ = _
      rw [h₂, h₁]
      simp
  | mul l r =>
      obtain ⟨t₁, h₁⟩ := convertExpr_instructions_append l b
      obtain ⟨t₂, h₂⟩ := convertExpr_instructions_append r (b.convertExpr l).1
      refine ⟨t₁ ++ t₂, SsaInstruction.mul ((b.convertExpr l).1.convertExpr r).1.newTemp.1
        (b.convertExpr l).2 ((b.convertExpr l).1.convertExpr r).2, ?_, rfl⟩
      show ((b.convertExpr l).1.convertExpr r).1.instructions ++ _ = _
      rw [h₂, h₁]
      simp

theorem patchDest_destination (v : SsaValue) (i : SsaInstruction) :
    DeadCodeEliminator.getDestination (patchDest v i) = v := by
  cases i <;> rfl

theorem patchLast_concat (l : List SsaInstruction) (x : SsaInstruction)
    (v : SsaValue) : patchLast (l ++ [x]) v = l ++ [patchDest v x] := by
  rw [patchLast]
  rw [List.getLast?_concat]
  rw [List.dropLast_concat]

end SsaBuilder

/-! ## Supporting lemmas about association lists -/

theorem alookup_mem {α β : Type} [DecidableEq α] :
    ∀ {m : List (α × β)} {k : α} {x : β}, alookup m k = some x → (k, x) ∈ m := by
  intro m
  induction m with
  | nil => intro k x h; cases h
  | cons e rest ih =>
      intro k x h
      rcases e with ⟨k₀, v₀⟩
      rw [alookup] at h
      by_cases hk : k₀ = k
      · rw [if_pos hk] at h
        cases h
        subst hk
        exact List.mem_cons_self _ _
      · rw [if_neg hk] at h
        exact List.mem_cons_of_mem _ (ih h)

theorem alookup_eq_none {α β : Type} [DecidableEq α] :
    ∀ {m : List (α × β)} {k : α}, alookup m k = none ↔ k ∉ m.map Prod.fst := by
  intro m
  induction m with
  | nil => intro k; simp [alookup]
  | cons e rest ih =>
      intro k
      rcases e with ⟨k₀, v₀⟩
      rw [alookup]
      by_cases hk : k₀ = k
      · subst hk
        simp
      · rw [if_neg hk]
        simp only [List.map_cons, List.mem_cons]
        rw [ih]
        constructor
        · intro h hcon
          rcases hcon with h' | h'
          · exact hk h'.symm
          · exact h h'
        · intro h h'
          exact h (Or.inr h')

theorem alookup_append_none {α β : Type} [DecidableEq α]
    {m : List (α × β)} {k : α} (h : alookup m k = none) (w : β) :
    alookup (m ++ [(k, w)]) k = some w := by
  induction m with
  | nil => simp [alookup]
  | cons e rest ih =>
      rcases e with ⟨k₀, v₀⟩
      rw [alookup] at h
      by_cases hk : k₀ = k
      · rw [if_pos hk] at h
        cases h
      · rw [if_neg hk] at h
        show alookup _ _ = _
        rw [List.cons_append, alookup, if_neg hk]
        exact ih h

theorem alookup_keys_unique {α β : Type} [DecidableEq α] :
    ∀ {m : List (α × β)}, (m.map Prod.fst).Nodup →
      ∀ {k : α} {a b : β}, (k, a) ∈ m → (k, b) ∈ m → a = b := by
  intro m
  induction m with
  | nil => intro _ k a b ha; cases ha
  | cons e rest ih =>
      rcases e with ⟨k₀, v₀⟩
      intro hnd k a b ha hb
      rw [List.map_cons, List.nodup_cons] at hnd
      rcases List.mem_cons.mp ha with ha' | ha' <;>
        rcases List.mem_cons.mp hb with hb' | hb'
      · rw [Prod.mk.injEq] at ha' hb'
        rw [ha'.2, hb'.2]
      · exfalso
        rw [Prod.mk.injEq] at ha'
        exact hnd.1 (ha'.1 ▸ (List.mem_map.mpr ⟨(k, b), hb', rfl⟩))
      · exfalso
        rw [Prod.mk.injEq] at hb'
        exact hnd.1 (hb'.1 ▸ (List.mem_map.mpr ⟨(k, a), ha', rfl⟩))
      · exact ih hnd.2 ha' hb'

/-! ## Supporting lemmas for the witness calculator -/

namespace WitnessCalculator

theorem calculateWitness_error_of_setInputs {c : Circuit} {inputs : InputFile}
    {e : WitnessError} (h : setInputs c inputs [] = .error e) :
    calculateWitness c inputs = .error e := by
  unfold calculateWitness
  rw [h]

theorem bindInputs_missing (mkErr : String → WitnessError)
    (vals : List (String × Int)) :
    ∀ declared : List (String × Wire),
      (∃ nw ∈ declared, alookup vals nw.1 = none) →
      ∃ n, (∃ w, (n, w) ∈ declared) ∧ alookup vals n = none ∧
        ∀ m : WireMap, bindInputs mkErr vals m declared = .error (mkErr n) := by
  intro declared
  induction declared with
  | nil => rintro ⟨nw, hmem, _⟩; cases hmem
  | cons hd rest ih =>
      rcases hd with ⟨name, w⟩
      intro hex
      cases h : alookup vals name with
      | none =>
          refine ⟨name, ⟨w, List.mem_cons_self _ _⟩, h, fun m => ?_⟩
          rw [bindInputs, h]
      | some value =>
          have hrest : ∃ nw ∈ rest, alookup vals nw.1 = none := by
            obtain ⟨nw, hmem, hnone⟩ := hex
            rcases List.mem_cons.mp hmem with heq | hmem'
            · subst heq
              rw [h] at hnone
              cases hnone
            · exact ⟨nw, hmem', hnone⟩
          obtain ⟨n, ⟨w', hw'⟩, hn, herr⟩ := ih hrest
          exact ⟨n, ⟨w', List.mem_cons_of_mem _ hw'⟩, hn,
            fun m => by rw [bindInputs, h]; exact herr _⟩

end WitnessCalculator

/-! ## Supporting lemmas for the constant folder -/

namespace ConstantFolder

theorem foldInstrs_length (m : ConstMap) (l : List SsaInstruction) :
    (foldInstrs m l).length = l.length := by
  induction l generalizing m with
  | nil => rfl
  | cons i rest ih => simp [foldInstrs, ih]

theorem foldState_append (m : ConstMap) (l₁ l₂ : List SsaInstruction) :
    foldState m (l₁ ++ l₂) = foldState (foldState m l₁) l₂ := by
  induction l₁ generalizing m with
  | nil => rfl
  | cons i rest ih => simp [foldState, ih]

theorem foldInstrs_getElem? (l : List SsaInstruction) :
    ∀ (m : ConstMap) (i : Nat),
      (foldInstrs m l)[i]? = (l[i]?).map
        (fun instr => (tryFoldInstruction (foldState m (l.take i)) instr).2) := by
  induction l with
  | nil => intro m i; rfl
  | cons j rest ih =>
      intro m i
      cases i with
      | zero => simp [foldInstrs, foldState]
      | succ i => simp [foldInstrs, ih, List.take_succ_cons, foldState]

end ConstantFolder

/-! ## Supporting lemmas for the circuit builder -/

namespace CircuitBuilder

theorem getOrCreateWire_spec (b : CircuitBuilder) (v : SsaValue)
    (hids : mapIds b = List.range b.wire_counter)
    (hkeys : (mapKeys b).Nodup) :
    mapIds (b.getOrCreateWire v).2 = List.range (b.getOrCreateWire v).2.wire_counter
    ∧ (mapKeys (b.getOrCreateWire v).2).Nodup
    ∧ (b.getOrCreateWire v).2.gates = b.gates
    ∧ (b.getOrCreateWire v).2.public_inputs = b.public_inputs
    ∧ (b.getOrCreateWire v).2.private_inputs = b.private_inputs
    ∧ b.wire_counter ≤ (b.getOrCreateWire v).2.wire_counter
    ∧ Finset.range (b.getOrCreateWire v).2.wire_counter
        = Finset.range b.wire_counter ∪ {(b.getOrCreateWire v).1.id}
    ∧ (v, (b.getOrCreateWire v).1) ∈ (b.getOrCreateWire v).2.ssa_to_wire
    ∧ (∀ e ∈ b.ssa_to_wire, e ∈ (b.getOrCreateWire v).2.ssa_to_wire) := by
  cases halo : alookup b.ssa_to_wire v with
  | some w =>
      have heq : b.getOrCreateWire v = (w, b) := by
        rw [getOrCreateWire, halo]
      rw [heq]
      have hwmem : (v, w) ∈ b.ssa_to_wire := alookup_mem halo
      have hwid : w.id ∈ Finset.range b.wire_counter := by
        rw [Finset.mem_range, ← List.mem_range, ← hids]
        exact List.mem_map.mpr ⟨(v, w), hwmem, rfl⟩
      refine ⟨hids, hkeys, rfl, rfl, rfl, Nat.le_refl _, ?_, hwmem, fun e he => he⟩
      exact (Finset.union_eq_left.mpr
        (Finset.singleton_subset_iff.mpr hwid)).symm
  | none =>
      have hvkeys : v ∉ mapKeys b := alookup_eq_none.mp halo
      have heq : b.getOrCreateWire v = (⟨b.wire_counter⟩,
          { b with wire_counter := b.wire_counter + 1,
                   ssa_to_wire := b.ssa_to_wire ++ [(v, ⟨b.wire_counter⟩)] }) := by
        rw [getOrCreateWire, halo]
        rfl
      rw [heq]
      refine ⟨?_, ?_, rfl, rfl, rfl, Nat.le_succ _, ?_, ?_, ?_⟩
      · rw [List.range_succ, ← hids]
        simp [mapIds]
      · simp only [mapKeys, List.map_append, List.map_cons, List.map_nil]
        rw [List.nodup_append]
        simp only [mapKeys] at hkeys hvkeys
        exact ⟨hkeys, List.nodup_singleton v,
          fun x hx hx' => hvkeys ((List.mem_singleton.mp hx') ▸ hx)⟩
      · rw [Finset.range_succ, Finset.insert_eq, Finset.union_comm]
      · exact List.mem_append_right _ (List.mem_singleton.mpr rfl)
      · exact fun e he => List.mem_append_left _ he

theorem builderIds_push_pub (b : CircuitBuilder) (name : String) (w : Wire) :
    builderIds { b with public_inputs := b.public_inputs ++ [(name, w)] }
      = builderIds b ∪ {w.id} := by
  ext x
  simp only [builderIds, List.map_append, List.toFinset_append, Finset.mem_union,
    Finset.mem_singleton, List.map_cons, List.map_nil, List.mem_toFinset,
    List.mem_singleton, List.mem_cons, List.not_mem_nil, or_false]
  tauto

theorem builderIds_push_priv (b : CircuitBuilder) (name : String) (w : Wire) :
    builderIds { b with private_inputs := b.private_inputs ++ [(name, w)] }
      = builderIds b ∪ {w.id} := by
  ext x
  simp only [builderIds, List.map_append, List.toFinset_append, Finset.mem_union,
    Finset.mem_singleton, List.map_cons, List.map_nil, List.mem_toFinset,
    List.mem_singleton, List.mem_cons, List.not_mem_nil, or_false]
  tauto

theorem builderIds_push_gate (b : CircuitBuilder) (g : Gate) :
    builderIds { b with gates := b.gates ++ [g] }
      = builderIds b ∪ (Circuit.gateWireIds g).toFinset := by
  ext x
  simp only [builderIds, List.flatMap_append, List.toFinset_append, Finset.mem_union,
    List.mem_toFinset, List.flatMap_cons, List.flatMap_nil, List.append_nil]
  tauto

theorem registerInputs_spec (isPub : Bool) (vs : List SsaValue) :
    ∀ b : CircuitBuilder, Inv b →
      Inv (registerInputs b isPub vs)
      ∧ (∀ e ∈ b.ssa_to_wire, e ∈ (registerInputs b isPub vs).ssa_to_wire)
      ∧ (∀ v ∈ vs, ∃ w, (v, w) ∈ (registerInputs b isPub vs).ssa_to_wire) := by
  induction vs with
  | nil =>
      intro b hb
      exact ⟨hb, fun e he => he, by simp⟩
  | cons v rest ih =>
      intro b hb
      obtain ⟨h1, h2, h3, h4, h5, h6, h7, h8, h9⟩ :=
        getOrCreateWire_spec b v hb.1 hb.2.1
      have hbi : builderIds (b.getOrCreateWire v).2 = builderIds b := by
        rw [builderIds, builderIds, h3, h4, h5]
      cases isPub with
      | true =>
          have hstep : registerInputs b true (v :: rest)
              = registerInputs { (b.getOrCreateWire v).2 with
                  public_inputs := (b.getOrCreateWire v).2.public_inputs
                    ++ [(v.name, (b.getOrCreateWire v).1)] } true rest := rfl
          have hinv₂ : Inv { (b.getOrCreateWire v).2 with
              public_inputs := (b.getOrCreateWire v).2.public_inputs
                ++ [(v.name, (b.getOrCreateWire v).1)] } := by
            refine ⟨h1, h2, ?_⟩
            rw [builderIds_push_pub, hbi, hb.2.2]
            exact h7.symm
          obtain ⟨ih1, ih2, ih3⟩ := ih _ hinv₂
          rw [hstep]
          refine ⟨ih1, ?_, ?_⟩
          · intro e he
            exact ih2 e (h9 e he)
          · intro v' hv'
            rcases List.mem_cons.mp hv' with heq | hmem
            · subst heq
              exact ⟨(b.getOrCreateWire v').1, ih2 _ h8⟩
            · exact ih3 v' hmem
      | false =>
          have hstep : registerInputs b false (v :: rest)
              = registerInputs { (b.getOrCreateWire v).2 with
                  private_inputs := (b.getOrCreateWire v).2.private_inputs
                    ++ [(v.name, (b.getOrCreateWire v).1)] } false rest := rfl
          have hinv₂ : Inv { (b.getOrCreateWire v).2 with
              private_inputs := (b.getOrCreateWire v).2.private_inputs
                ++ [(v.name, (b.getOrCreateWire v).1)] } := by
            refine ⟨h1, h2, ?_⟩
            rw [builderIds_push_priv, hbi, hb.2.2]
            exact h7.symm
          obtain ⟨ih1, ih2, ih3⟩ := ih _ hinv₂
          rw [hstep]
          refine ⟨ih1, ?_, ?_⟩
          · intro e he
            exact ih2 e (h9 e he)
          · intro v' hv'
            rcases List.mem_cons.mp hv' with heq | hmem
            · subst heq
              exact ⟨(b.getOrCreateWire v').1, ih2 _ h8⟩
            · exact ih3 v' hmem

theorem convertInstruction_spec (b : CircuitBuilder) (i : SsaInstruction)
    (hb : Inv b) :
    Inv (b.convertInstruction i)
    ∧ (∀ e ∈ b.ssa_to_wire, e ∈ (b.convertInstruction i).ssa_to_wire)
    ∧ (∀ v ∈ DeadCodeEliminator.getDestination i :: DeadCodeEliminator.getInputs i,
        ∃ w, (v, w) ∈ (b.convertInstruction i).ssa_to_wire) := by
  cases i with
  | const dest value =>
      obtain ⟨h1, h2, h3, h4, h5, h6, h7, h8, h9⟩ :=
        getOrCreateWire_spec b dest hb.1 hb.2.1
      have hbi : builderIds (b.getOrCreateWire dest).2 = builderIds b := by
        rw [builderIds, builderIds, h3, h4, h5]
      rw [show b.convertInstruction (SsaInstruction.const dest value)
          = { (b.getOrCreateWire dest).2 with gates := (b.getOrCreateWire dest).2.gates
              ++ [Gate.const (b.getOrCreateWire dest).1 value] } from rfl]
      refine ⟨⟨h1, h2, ?_⟩, ?_, ?_⟩
      · rw [builderIds_push_gate, hbi, hb.2.2]
        rw [show (Circuit.gateWireIds
            (Gate.const (b.getOrCreateWire dest).1 value)).toFinset
          = {(b.getOrCreateWire dest).1.id} from rfl]
        exact h7.symm
      · intro e he
        exact h9 e he
      · intro v hv
        rcases List.mem_cons.mp hv with heq | hmem
        · rw [show DeadCodeEliminator.getDestination
              (SsaInstruction.const dest value) = dest from rfl] at heq
          rw [heq]
          exact ⟨_, h8⟩
        · cases hmem
  | add dest l r =>
      obtain ⟨a1, a2, a3, a4, a5, a6, a7, a8, a9⟩ :=
        getOrCreateWire_spec b dest hb.1 hb.2.1
      obtain ⟨b1, b2, b3, b4, b5, b6, b7, b8, b9⟩ :=
        getOrCreateWire_spec (b.getOrCreateWire dest).2 l a1 a2
      obtain ⟨c1, c2, c3, c4, c5, c6, c7, c8, c9⟩ :=
        getOrCreateWire_spec ((b.getOrCreateWire dest).2.getOrCreateWire l).2 r b1 b2
      have hbi : builderIds (((b.getOrCreateWire dest).2.getOrCreateWire l).2.getOrCreateWire r).2
          = builderIds b := by
        rw [builderIds, builderIds, c3, c4, c5, b3, b4, b5, a3, a4, a5]
      rw [show b.convertInstruction (SsaInstruction.add dest l r)
          = { (((b.getOrCreateWire dest).2.getOrCreateWire l).2.getOrCreateWire r).2 with
              gates := (((b.getOrCreateWire dest).2.getOrCreateWire l).2.getOrCreateWire r).2.gates
                ++ [Gate.add (b.getOrCreateWire dest).1
                    ((b.getOrCreateWire dest).2.getOrCreateWire l).1
                    (((b.getOrCreateWire dest).2.getOrCreateWire l).2.getOrCreateWire r).1] }
          from rfl]
      refine ⟨⟨c1, c2, ?_⟩, ?_, ?_⟩
      · rw [builderIds_push_gate, hbi, hb.2.2]
        rw [c7, b7, a7]
        ext x
        simp only [Finset.mem_union, Finset.mem_singleton, List.mem_toFinset,
          Circuit.gateWireIds, List.mem_cons, List.not_mem_nil, or_false]
        tauto
      · intro e he
        exact c9 e (b9 e (a9 e he))
      · intro v hv
        rcases List.mem_cons.mp hv with heq | hmem
        · rw [show DeadCodeEliminator.getDestination
              (SsaInstruction.add dest l r) = dest from rfl] at heq
          rw [heq]
          exact ⟨_, c9 _ (b9 _ a8)⟩
        · rcases List.mem_cons.mp hmem with heq | hmem'
          · rw [heq]
            exact ⟨_, c9 _ b8⟩
          · rw [List.mem_singleton.mp hmem']
            exact ⟨_, c8⟩
  | mul dest l r =>
      obtain ⟨a1, a2, a3, a4, a5, a6, a7, a8, a9⟩ :=
        getOrCreateWire_spec b dest hb.1 hb.2.1
      obtain ⟨b1, b2, b3, b4, b5, b6, b7, b8, b9⟩ :=
        getOrCreateWire_spec (b.getOrCreateWire dest).2 l a1 a2
      obtain ⟨c1, c2, c3, c4, c5, c6, c7, c8, c9⟩ :=
        getOrCreateWire_spec ((b.getOrCreateWire dest).2.getOrCreateWire l).2 r b1 b2
      have hbi : builderIds (((b.getOrCreateWire dest).2.getOrCreateWire l).2.getOrCreateWire r).2
          = builderIds b := by
        rw [builderIds, builderIds, c3, c4, c5, b3, b4, b5, a3, a4, a5]
      rw [show b.convertInstruction (SsaInstruction.mul dest l r)
          = { (((b.getOrCreateWire dest).2.getOrCreateWire l).2.getOrCreateWire r).2 with
              gates := (((b.getOrCreateWire dest).2.getOrCreateWire l).2.getOrCreateWire r).2.gates
                ++ [Gate.mul (b.getOrCreateWire dest).1
                    ((b.getOrCreateWire dest).2.getOrCreateWire l).1
                    (((b.getOrCreateWire dest).2.getOrCreateWire l).2.getOrCreateWire r).1] }
          from rfl]
      refine ⟨⟨c1, c2, ?_⟩, ?_, ?_⟩
      · rw [builderIds_push_gate, hbi, hb.2.2]
        rw [c7, b7, a7]
        ext x
        simp only [Finset.mem_union, Finset.mem_singleton, List.mem_toFinset,
          Circuit.gateWireIds, List.mem_cons, List.not_mem_nil, or_false]
        tauto
      · intro e he
        exact c9 e (b9 e (a9 e he))
      · intro v hv
        rcases List.mem_cons.mp hv with heq | hmem
        · rw [show DeadCodeEliminator.getDestination
              (SsaInstruction.mul dest l r) = dest from rfl] at heq
          rw [heq]
          exact ⟨_, c9 _ (b9 _ a8)⟩
        · rcases List.mem_cons.mp hmem with heq | hmem'
          · rw [heq]
            exact ⟨_, c9 _ b8⟩
          · rw [List.mem_singleton.mp hmem']
            exact ⟨_, c8⟩

theorem convertInstructions_spec (insts : List SsaInstruction) :
    ∀ b : CircuitBuilder, Inv b →
      Inv (convertInstructions b insts)
      ∧ (∀ e ∈ b.ssa_to_wire, e ∈ (convertInstructions b insts).ssa_to_wire)
      ∧ (∀ i ∈ insts,
          ∀ v ∈ DeadCodeEliminator.getDestination i :: DeadCodeEliminator.getInputs i,
          ∃ w, (v, w) ∈ (convertInstructions b insts).ssa_to_wire) := by
  induction insts with
  | nil =>
      intro b hb
      exact ⟨hb, fun e he => he, by simp⟩
  | cons i rest ih =>
      intro b hb
      obtain ⟨hinv, hmono, hcov⟩ := convertInstruction_spec b i hb
      obtain ⟨ih1, ih2, ih3⟩ := ih _ hinv
      refine ⟨ih1, ?_, ?_⟩
      · intro e he
        exact ih2 e (hmono e he)
      · intro j hj v hv
        rcases List.mem_cons.mp hj with heq | hmem
        · subst heq
          obtain ⟨w, hw⟩ := hcov v hv
          exact ⟨w, ih2 _ hw⟩
        · exact ih3 j hmem v hv

end CircuitBuilder

/-! ## Claim theorems -/

/-- Claim C1, supporting theorem for a code bug. The R1CS lowering reuses
vector index 0 both as the reserved constant-one slot (`a[0] = 1`,
`b[0] = value`, `b[0] = 1` in `to_r1cs`) and as a real wire id (wire ids
are allocated from 0).  For the program `const a = 2; return a` the whole
pipeline produces a single `Const` gate writing wire 0; the witness
calculator happily returns 2, yet the unique generated constraint
`a = [1], b = [2], c = [1]` evaluates to `(a·x)*(b·x) = 2 ≠ 1 = c·x`
against the claim's witness vector `x = [1]` (slot 0 fixed at 1) — and to
`2 * 4 = 8 ≠ 2` against the raw wire values `x = [2]`.  So the claimed
R1CS equivalence fails on this concrete circuit. -/
theorem c1_r1cs_slot_zero_bug :
    SsaBuilder.convert ⟨[Stmt.constDecl "a" 2, Stmt.ret (Expr.var "a")]⟩
      = some ⟨[SsaInstruction.const ⟨"a", 1⟩ 2], ⟨"a", 1⟩, [], []⟩
    ∧ CircuitBuilder.fromSsa ⟨[SsaInstruction.const ⟨"a", 1⟩ 2], ⟨"a", 1⟩, [], []⟩
      = ⟨[], [], [Gate.const ⟨0⟩ 2], ⟨0⟩⟩
    ∧ (CircuitBuilder.fromSsa
        ⟨[SsaInstruction.const ⟨"a", 1⟩ 2], ⟨"a", 1⟩, [], []⟩).toR1cs.constraints
      = [⟨[1], [2], [1]⟩]
    ∧ WitnessCalculator.calculateWitness
        (CircuitBuilder.fromSsa ⟨[SsaInstruction.const ⟨"a", 1⟩ 2], ⟨"a", 1⟩, [], []⟩)
        ⟨none, none⟩ = .ok 2
    ∧ dotL [1] [1] * dotL [2] [1] ≠ dotL [1] [1]
    ∧ dotL [1] [2] * dotL [2] [2] ≠ dotL [1] [2] :=
  ⟨by decide, by decide, by decide, by rfl, by decide, by decide⟩

/-- Claim C4. (The `Gate::Assert` arm of `execute_gate` is absent from the
snapshot's `witness.rs` and is modelled from the spec, see
`executeAssert`.)  Executing an `Assert` gate writes the linear difference
`left - right` to the gate's output wire, and the execution succeeds
exactly when both operand wires have values — in particular it never
returns an error on account of the difference being nonzero. -/
theorem c4_assert_execution (m : WitnessCalculator.WireMap) (out l r : Wire) :
    (∀ lv rv, WitnessCalculator.getWireValue m l = some lv →
      WitnessCalculator.getWireValue m r = some rv →
      WitnessCalculator.executeGate m (Gate.assert out l r) = .ok ((out, lv - rv) :: m))
    ∧ ((∃ m', WitnessCalculator.executeGate m (Gate.assert out l r) = .ok m')
        ↔ (WitnessCalculator.getWireValue m l).isSome
          ∧ (WitnessCalculator.getWireValue m r).isSome) := by
  constructor
  · intro lv rv hl hr
    show WitnessCalculator.executeAssert m out l r = _
    rw [WitnessCalculator.executeAssert, hl, hr]
  · show (∃ m', WitnessCalculator.executeAssert m out l r = .ok m') ↔ _
    rw [WitnessCalculator.executeAssert]
    cases hl : WitnessCalculator.getWireValue m l with
    | none => simp [hl]
    | some lv =>
        cases hr : WitnessCalculator.getWireValue m r with
        | none => simp [hl, hr]
        | some rv => simp [hl, hr]

/-- Witness for C4: with wire 0 holding 5 and wire 1 holding 3, the
`Assert` gate writes the (nonzero!) difference 2 to its output wire 2 and
succeeds. -/
theorem c4_assert_execution_witness :
    WitnessCalculator.executeGate [(⟨0⟩, 5), (⟨1⟩, 3)] (Gate.assert ⟨2⟩ ⟨0⟩ ⟨1⟩)
      = .ok [(⟨2⟩, 5 - 3), (⟨0⟩, 5), (⟨1⟩, 3)]
    ∧ (5 - 3 : Int) ≠ 0 :=
  ⟨(c4_assert_execution [(⟨0⟩, 5), (⟨1⟩, 3)] ⟨2⟩ ⟨0⟩ ⟨1⟩).1 5 3 rfl rfl, by decide⟩

/-- Claim C2, amended. `DeadCodeEliminator::eliminate` removes every
instruction whose destination is never read (it appears as no
instruction's operand and is not the return value), is not a declared
input, and is *not input-dependent* (not in the transitive forward closure
of the declared inputs computed by phase 1) — the last condition is what
the original claim is missing: input-dependent instructions are kept even
when their destination is never read. -/
theorem c2_dce_removes_unread (p : SsaProgram) (i : SsaInstruction)
    (hnotread : ∀ j ∈ p.instructions,
      DeadCodeEliminator.getDestination i ∉ DeadCodeEliminator.getInputs j)
    (hnotret : DeadCodeEliminator.getDestination i ≠ p.return_value)
    (hnotinput : DeadCodeEliminator.getDestination i
      ∉ p.public_inputs ++ p.private_inputs)
    (hnotdep : DeadCodeEliminator.getDestination i
      ∉ DeadCodeEliminator.inputDependent p) :
    i ∉ (DeadCodeEliminator.eliminate p).instructions := by
  intro hcontra
  have hmem := List.mem_filter.mp hcontra
  have hused : DeadCodeEliminator.getDestination i ∈ DeadCodeEliminator.usedValues p :=
    of_decide_eq_true hmem.2
  have := DeadCodeEliminator.usedValues_pool p hused
  rcases Finset.mem_union.mp this with h | h
  · rcases Finset.mem_union.mp h with h' | h'
    · rcases Finset.mem_insert.mp h' with h'' | h''
      · exact hnotret h''
      · exact hnotinput (List.mem_toFinset.mp h'')
    · exact hnotdep h'
  · rw [DeadCodeEliminator.inputPool, List.mem_toFinset, List.mem_flatMap] at h
    obtain ⟨j, hj, hij⟩ := h
    exact hnotread j hj hij

/-- Witness for C2 (amended): in the input-free program
`a = 2; b = 3; return b`, the instruction defining `a` (never read, not an
input, not input-dependent) is removed. -/
theorem c2_dce_removes_unread_witness :
    SsaInstruction.const ⟨"a", 0⟩ 2 ∉ (DeadCodeEliminator.eliminate
      ⟨[SsaInstruction.const ⟨"a", 0⟩ 2, SsaInstruction.const ⟨"b", 0⟩ 3],
        ⟨"b", 0⟩, [], []⟩).instructions :=
  c2_dce_removes_unread
    ⟨[SsaInstruction.const ⟨"a", 0⟩ 2, SsaInstruction.const ⟨"b", 0⟩ 3],
      ⟨"b", 0⟩, [], []⟩
    (SsaInstruction.const ⟨"a", 0⟩ 2)
    (by decide) (by decide) (by decide) (by decide)

/-- Claim C3, amended. For a `Let` statement whose right-hand side is *not*
a bare variable reference, lowering the expression appends at least one
instruction, the final appended instruction's destination is rewritten to
the next version of the bound name, and every instruction that existed
before the statement survives unchanged (as the preserved prefix).  (For a
bare-variable right-hand side the code appends nothing and instead
rewrites the destination of whatever instruction happened to be last — see
the counterexample.) -/
theorem c3_let_lowering (b : SsaBuilder) (r : Option SsaValue) (name : String)
    (e : Expr) (he : ∀ n, e ≠ Expr.var n) :
    ∃ mid instr,
      ((b.convertStmt r (Stmt.letStmt name e)).1).instructions
        = b.instructions ++ mid ++ [instr]
      ∧ DeadCodeEliminator.getDestination instr
          = ⟨name, (alookup b.var_versions name).getD 0 + 1⟩ := by
  obtain ⟨mid, instr₀, hshape, _⟩ := SsaBuilder.convertExpr_nonvar_last e he b
  refine ⟨mid, SsaBuilder.patchDest
    ⟨name, (alookup (b.convertExpr e).1.var_versions name).getD 0 + 1⟩ instr₀, ?_, ?_⟩
  · show SsaBuilder.patchLast (b.convertExpr e).1.instructions
        ⟨name, (alookup (b.convertExpr e).1.var_versions name).getD 0 + 1⟩ = _
    rw [hshape, List.append_assoc, ← List.append_assoc]
    rw [SsaBuilder.patchLast_concat]
  · rw [SsaBuilder.patchDest_destination, SsaBuilder.convertExpr_var_versions]

/-- Witness for C3 (amended): `let y = 2` on a fresh builder appends one
instruction whose destination is `y` at version 1. -/
theorem c3_let_lowering_witness :
    ∃ mid instr,
      ((SsaBuilder.init.convertStmt none (Stmt.letStmt "y" (Expr.lit 2))).1).instructions
        = SsaBuilder.init.instructions ++ mid ++ [instr]
      ∧ DeadCodeEliminator.getDestination instr
          = ⟨"y", (alookup SsaBuilder.init.var_versions "y").getD 0 + 1⟩ :=
  c3_let_lowering SsaBuilder.init none "y" (Expr.lit 2)
    (fun _ h => Expr.noConfusion h)

/-- Claim C3, counterexample. In `let a = 2 / let b = a / return b`, the
second `Let` has a bare variable as right-hand side: lowering it appends
*no* instruction, and the pop/patch/push rewrites the destination of the
*previous* statement's instruction `Const(a.1, 2)` into `Const(b.1, 2)` —
so a previously emitted instruction does not survive unchanged, refuting
the claim's "including when the right-hand side is a bare variable
reference". -/
theorem c3_counterexample :
    SsaBuilder.convert ⟨[Stmt.letStmt "a" (Expr.lit 2),
        Stmt.letStmt "b" (Expr.var "a"), Stmt.ret (Expr.var "b")]⟩
      = some ⟨[SsaInstruction.const ⟨"b", 1⟩ 2], ⟨"b", 1⟩, [], []⟩
    ∧ ((SsaBuilder.init.convertStmt none (Stmt.letStmt "a" (Expr.lit 2))).1).instructions
      = [SsaInstruction.const ⟨"a", 1⟩ 2]
    ∧ (((SsaBuilder.init.convertStmt none (Stmt.letStmt "a" (Expr.lit 2))).1.convertStmt
        none (Stmt.letStmt "b" (Expr.var "a"))).1).instructions
      = [SsaInstruction.const ⟨"b", 1⟩ 2] :=
  ⟨by decide, by decide, by decide⟩

/-- Claim C2, counterexample. The spec's own dead-code example
`public x / let unused = x + 1 / return 7`: the instruction defining
`unused` has a destination that is never read, is not a declared input —
yet `eliminate` removes *nothing* (the forward input-dependence phase marks
`unused` used because its operand `x` is an input).  `x` does remain a
declared public input, but the claimed removal does not happen. -/
theorem c2_counterexample :
    SsaBuilder.convert ⟨[Stmt.publicInput "x",
        Stmt.letStmt "unused" (Expr.add (Expr.var "x") (Expr.lit 1)),
        Stmt.ret (Expr.lit 7)]⟩
      = some ⟨[SsaInstruction.const ⟨"t0", 0⟩ 1,
          SsaInstruction.add ⟨"unused", 1⟩ ⟨"x", 1⟩ ⟨"t0", 0⟩,
          SsaInstruction.const ⟨"t2", 0⟩ 7], ⟨"t2", 0⟩, [⟨"x", 1⟩], []⟩
    ∧ DeadCodeEliminator.eliminate
        ⟨[SsaInstruction.const ⟨"t0", 0⟩ 1,
          SsaInstruction.add ⟨"unused", 1⟩ ⟨"x", 1⟩ ⟨"t0", 0⟩,
          SsaInstruction.const ⟨"t2", 0⟩ 7], ⟨"t2", 0⟩, [⟨"x", 1⟩], []⟩
      = ⟨[SsaInstruction.const ⟨"t0", 0⟩ 1,
          SsaInstruction.add ⟨"unused", 1⟩ ⟨"x", 1⟩ ⟨"t0", 0⟩,
          SsaInstruction.const ⟨"t2", 0⟩ 7], ⟨"t2", 0⟩, [⟨"x", 1⟩], []⟩
    ∧ (∀ j ∈ [SsaInstruction.const ⟨"t0", 0⟩ 1,
          SsaInstruction.add ⟨"unused", 1⟩ ⟨"x", 1⟩ ⟨"t0", 0⟩,
          SsaInstruction.const ⟨"t2", 0⟩ 7],
        (⟨"unused", 1⟩ : SsaValue) ∉ DeadCodeEliminator.getInputs j)
    ∧ (⟨"unused", 1⟩ : SsaValue) ≠ (⟨"t2", 0⟩ : SsaValue)
    ∧ (⟨"unused", 1⟩ : SsaValue) ∉ ([⟨"x", 1⟩] : List SsaValue) :=
  ⟨by decide, by decide, by decide, by decide, by decide⟩

/-- Claim C5. Constant folding is a positionally exact rewrite: the i-th
output instruction is the i-th input instruction folded against the
constants recorded while scanning the prefix before it (so in particular
the output length equals the input length); a `Const` is kept with its
value recorded; an `Add`/`Mul` whose operands both have recorded values
becomes `Const(dest, l OP r)` with `dest` recorded; an `Add`/`Mul` with an
unknown operand is kept unchanged and `dest` is not recorded (the constants
map is untouched). -/
theorem c5_constant_folding (p : SsaProgram) :
    (ConstantFolder.optimize p).instructions.length = p.instructions.length
    ∧ (∀ i : Nat, (ConstantFolder.optimize p).instructions[i]? =
        (p.instructions[i]?).map (fun instr =>
          (ConstantFolder.tryFoldInstruction
            (ConstantFolder.foldState [] (p.instructions.take i)) instr).2))
    ∧ (∀ i d v, p.instructions[i]? = some (.const d v) →
        (ConstantFolder.optimize p).instructions[i]? = some (.const d v)
        ∧ ConstantFolder.foldState [] (p.instructions.take (i + 1))
          = (d, v) :: ConstantFolder.foldState [] (p.instructions.take i))
    ∧ (∀ i d l r lv rv, p.instructions[i]? = some (.add d l r) →
        alookup (ConstantFolder.foldState [] (p.instructions.take i)) l = some lv →
        alookup (ConstantFolder.foldState [] (p.instructions.take i)) r = some rv →
        (ConstantFolder.optimize p).instructions[i]? = some (.const d (lv + rv))
        ∧ ConstantFolder.foldState [] (p.instructions.take (i + 1))
          = (d, lv + rv) :: ConstantFolder.foldState [] (p.instructions.take i))
    ∧ (∀ i d l r lv rv, p.instructions[i]? = some (.mul d l r) →
        alookup (ConstantFolder.foldState [] (p.instructions.take i)) l = some lv →
        alookup (ConstantFolder.foldState [] (p.instructions.take i)) r = some rv →
        (ConstantFolder.optimize p).instructions[i]? = some (.const d (lv * rv))
        ∧ ConstantFolder.foldState [] (p.instructions.take (i + 1))
          = (d, lv * rv) :: ConstantFolder.foldState [] (p.instructions.take i))
    ∧ (∀ i d l r, p.instructions[i]? = some (.add d l r) →
        (alookup (ConstantFolder.foldState [] (p.instructions.take i)) l = none
          ∨ alookup (ConstantFolder.foldState [] (p.instructions.take i)) r = none) →
        (ConstantFolder.optimize p).instructions[i]? = some (.add d l r)
        ∧ ConstantFolder.foldState [] (p.instructions.take (i + 1))
          = ConstantFolder.foldState [] (p.instructions.take i))
    ∧ (∀ i d l r, p.instructions[i]? = some (.mul d l r) →
        (alookup (ConstantFolder.foldState [] (p.instructions.take i)) l = none
          ∨ alookup (ConstantFolder.foldState [] (p.instructions.take i)) r = none) →
        (ConstantFolder.optimize p).instructions[i]? = some (.mul d l r)
        ∧ ConstantFolder.foldState [] (p.instructions.take (i + 1))
          = ConstantFolder.foldState [] (p.instructions.take i)) := by
  have hpt : ∀ i : Nat, (ConstantFolder.optimize p).instructions[i]? =
      (p.instructions[i]?).map (fun instr =>
        (ConstantFolder.tryFoldInstruction
          (ConstantFolder.foldState [] (p.instructions.take i)) instr).2) :=
    fun i => ConstantFolder.foldInstrs_getElem? p.instructions [] i
  have hstate : ∀ (i : Nat) (instr : SsaInstruction),
      p.instructions[i]? = some instr →
      ConstantFolder.foldState [] (p.instructions.take (i + 1))
        = (ConstantFolder.tryFoldInstruction
            (ConstantFolder.foldState [] (p.instructions.take i)) instr).1 := by
    intro i instr hi
    rw [List.take_succ, hi]
    rw [ConstantFolder.foldState_append]
    rfl
  refine ⟨?_, hpt, ?_, ?_, ?_, ?_, ?_⟩
  · exact ConstantFolder.foldInstrs_length [] p.instructions
  · intro i d v hi
    refine ⟨?_, ?_⟩
    · rw [hpt i, hi]
      rfl
    · rw [hstate i _ hi]
      rfl
  · intro i d l r lv rv hi hl hr
    refine ⟨?_, ?_⟩
    · rw [hpt i, hi]
      show some (ConstantFolder.tryFoldInstruction _ (.add d l r)).2 = _
      rw [ConstantFolder.tryFoldInstruction, hl, hr]
    · rw [hstate i _ hi]
      show (ConstantFolder.tryFoldInstruction _ (.add d l r)).1 = _
      rw [ConstantFolder.tryFoldInstruction, hl, hr]
  · intro i d l r lv rv hi hl hr
    refine ⟨?_, ?_⟩
    · rw [hpt i, hi]
      show some (ConstantFolder.tryFoldInstruction _ (.mul d l r)).2 = _
      rw [ConstantFolder.tryFoldInstruction, hl, hr]
    · rw [hstate i _ hi]
      show (ConstantFolder.tryFoldInstruction _ (.mul d l r)).1 = _
      rw [ConstantFolder.tryFoldInstruction, hl, hr]
  · intro i d l r hi hnone
    refine ⟨?_, ?_⟩
    · rw [hpt i, hi]
      show some (ConstantFolder.tryFoldInstruction _ (.add d l r)).2 = _
      rw [ConstantFolder.tryFoldInstruction]
      rcases hnone with h | h
      · rw [h]
      · rw [h]
        cases alookup (ConstantFolder.foldState [] (p.instructions.take i)) l <;> rfl
    · rw [hstate i _ hi]
      show (ConstantFolder.tryFoldInstruction _ (.add d l r)).1 = _
      rw [ConstantFolder.tryFoldInstruction]
      rcases hnone with h | h
      · rw [h]
      · rw [h]
        cases alookup (ConstantFolder.foldState [] (p.instructions.take i)) l <;> rfl
  · intro i d l r hi hnone
    refine ⟨?_, ?_⟩
    · rw [hpt i, hi]
      show some (ConstantFolder.tryFoldInstruction _ (.mul d l r)).2 = _
      rw [ConstantFolder.tryFoldInstruction]
      rcases hnone with h | h
      · rw [h]
      · rw [h]
        cases alookup (ConstantFolder.foldState [] (p.instructions.take i)) l <;> rfl
    · rw [hstate i _ hi]
      show (ConstantFolder.tryFoldInstruction _ (.mul d l r)).1 = _
      rw [ConstantFolder.tryFoldInstruction]
      rcases hnone with h | h
      · rw [h]
      · rw [h]
        cases alookup (ConstantFolder.foldState [] (p.instructions.take i)) l <;> rfl

/-- Witness for C5: on the program
`a = 2; c = a + a; d = x * a` (with `x` never defined as a constant)
the folder keeps the `Const`, folds the `Add` into `Const(c, 4)`, and
keeps the `Mul` unchanged; lengths agree. -/
theorem c5_constant_folding_witness :
    (ConstantFolder.optimize
      ⟨[SsaInstruction.const ⟨"a", 0⟩ 2,
        SsaInstruction.add ⟨"c", 0⟩ ⟨"a", 0⟩ ⟨"a", 0⟩,
        SsaInstruction.mul ⟨"d", 0⟩ ⟨"x", 0⟩ ⟨"a", 0⟩],
        ⟨"d", 0⟩, [], []⟩).instructions.length = 3
    ∧ (ConstantFolder.optimize
      ⟨[SsaInstruction.const ⟨"a", 0⟩ 2,
        SsaInstruction.add ⟨"c", 0⟩ ⟨"a", 0⟩ ⟨"a", 0⟩,
        SsaInstruction.mul ⟨"d", 0⟩ ⟨"x", 0⟩ ⟨"a", 0⟩],
        ⟨"d", 0⟩, [], []⟩).instructions[1]?
      = some (.const ⟨"c", 0⟩ (2 + 2))
    ∧ (ConstantFolder.optimize
      ⟨[SsaInstruction.const ⟨"a", 0⟩ 2,
        SsaInstruction.add ⟨"c", 0⟩ ⟨"a", 0⟩ ⟨"a", 0⟩,
        SsaInstruction.mul ⟨"d", 0⟩ ⟨"x", 0⟩ ⟨"a", 0⟩],
        ⟨"d", 0⟩, [], []⟩).instructions[2]?
      = some (.mul ⟨"d", 0⟩ ⟨"x", 0⟩ ⟨"a", 0⟩) :=
  ⟨(c5_constant_folding _).1.trans (by decide),
    ((c5_constant_folding _).2.2.2.1 1 ⟨"c", 0⟩ ⟨"a", 0⟩ ⟨"a", 0⟩ 2 2
      (by decide) (by decide) (by decide)).1,
    ((c5_constant_folding _).2.2.2.2.2.2 2 ⟨"d", 0⟩ ⟨"x", 0⟩ ⟨"a", 0⟩
      (by decide) (Or.inl (by decide))).1⟩

/-- Claim C6. `CircuitBuilder::from_ssa` assigns every `SsaValue` occurring
anywhere in the program exactly one wire (the final `ssa_to_wire` map has
an entry for each such value and never two), and the set of wire ids
appearing in the resulting circuit — input wires, every wire of every
gate, and the output wire — is exactly the contiguous range `0..N` for
some `N`. -/
theorem c6_wire_uniqueness (p : SsaProgram) :
    (∀ v ∈ ssaValuesOf p, ∃! w : Wire,
        (v, w) ∈ (CircuitBuilder.runFromSsa p).2.ssa_to_wire)
    ∧ ∃ N : Nat, (CircuitBuilder.fromSsa p).circuitWireIds = Finset.range N := by
  have hinit : CircuitBuilder.Inv CircuitBuilder.init :=
    ⟨rfl, List.nodup_nil, by simp [CircuitBuilder.builderIds, CircuitBuilder.init]⟩
  obtain ⟨h1inv, h1mono, h1cov⟩ :=
    CircuitBuilder.registerInputs_spec true p.public_inputs CircuitBuilder.init hinit
  obtain ⟨h2inv, h2mono, h2cov⟩ :=
    CircuitBuilder.registerInputs_spec false p.private_inputs _ h1inv
  obtain ⟨h3inv, h3mono, h3cov⟩ :=
    CircuitBuilder.convertInstructions_spec p.instructions _ h2inv
  obtain ⟨g1, g2, g3, g4, g5, g6, g7, g8, g9⟩ :=
    CircuitBuilder.getOrCreateWire_spec
      (CircuitBuilder.convertInstructions
        (CircuitBuilder.registerInputs
          (CircuitBuilder.registerInputs CircuitBuilder.init true p.public_inputs)
          false p.private_inputs)
        p.instructions)
      p.return_value h3inv.1 h3inv.2.1
  constructor
  · intro v hv
    have hentry : ∃ w, (v, w) ∈ (CircuitBuilder.runFromSsa p).2.ssa_to_wire := by
      rw [ssaValuesOf] at hv
      rcases List.mem_append.mp hv with hv' | hret
      · rcases List.mem_append.mp hv' with hv'' | hinstr
        · rcases List.mem_append.mp hv'' with hpub | hpriv
          · obtain ⟨w, hw⟩ := h1cov v hpub
            exact ⟨w, g9 _ (h3mono _ (h2mono _ hw))⟩
          · obtain ⟨w, hw⟩ := h2cov v hpriv
            exact ⟨w, g9 _ (h3mono _ hw)⟩
        · obtain ⟨i, hi, hvi⟩ := List.mem_flatMap.mp hinstr
          obtain ⟨w, hw⟩ := h3cov i hi v hvi
          exact ⟨w, g9 _ hw⟩
      · rw [List.mem_singleton.mp hret]
        exact ⟨_, g8⟩
    obtain ⟨w, hw⟩ := hentry
    exact ⟨w, hw, fun w' hw' => alookup_keys_unique g2 hw' hw⟩
  · refine ⟨(CircuitBuilder.runFromSsa p).2.wire_counter, ?_⟩
    have hbi3 : CircuitBuilder.builderIds (CircuitBuilder.runFromSsa p).2
        = CircuitBuilder.builderIds
          (CircuitBuilder.convertInstructions
            (CircuitBuilder.registerInputs
              (CircuitBuilder.registerInputs CircuitBuilder.init true p.public_inputs)
              false p.private_inputs)
            p.instructions) := by
      rw [CircuitBuilder.builderIds, CircuitBuilder.builderIds]
      rw [show (CircuitBuilder.runFromSsa p).2.gates = _ from g3]
      rw [show (CircuitBuilder.runFromSsa p).2.public_inputs = _ from g4]
      rw [show (CircuitBuilder.runFromSsa p).2.private_inputs = _ from g5]
    have hcw : (CircuitBuilder.fromSsa p).circuitWireIds
        = CircuitBuilder.builderIds (CircuitBuilder.runFromSsa p).2
          ∪ {(CircuitBuilder.runFromSsa p).1.output_wire.id} := rfl
    rw [hcw, hbi3, h3inv.2.2]
    exact g7.symm

/-- Witness for C6: in the compiled form of `const a = 2 / return a`, the
value `a.1` is mapped to exactly one wire. -/
theorem c6_wire_uniqueness_witness :
    ∃! w : Wire, ((⟨"a", 1⟩ : SsaValue), w) ∈ (CircuitBuilder.runFromSsa
      ⟨[SsaInstruction.const ⟨"a", 1⟩ 2], ⟨"a", 1⟩, [], []⟩).2.ssa_to_wire :=
  (c6_wire_uniqueness ⟨[SsaInstruction.const ⟨"a", 1⟩ 2], ⟨"a", 1⟩, [], []⟩).1
    ⟨"a", 1⟩ (by decide)

/-- Claim C7. Dead code elimination is idempotent: the sets computed by both
fixpoint phases are unchanged when recomputed on the already-filtered
program, so a second run filters nothing further. -/
theorem c7_dce_idempotent (p : SsaProgram) :
    DeadCodeEliminator.eliminate (DeadCodeEliminator.eliminate p)
      = DeadCodeEliminator.eliminate p := by
  set p' := DeadCodeEliminator.eliminate p with hp'
  have hmem' : ∀ i ∈ p'.instructions,
      i ∈ p.instructions
      ∧ DeadCodeEliminator.getDestination i ∈ DeadCodeEliminator.usedValues p := by
    intro i hi
    have := List.mem_filter.mp hi
    exact ⟨this.1, of_decide_eq_true this.2⟩
  have hseed : DeadCodeEliminator.inputSeed p' = DeadCodeEliminator.inputSeed p := rfl
  -- Phase 1 computes the same set on the filtered program.
  have hDsub : DeadCodeEliminator.inputDependent p' ⊆ DeadCodeEliminator.inputDependent p := by
    refine DeadCodeEliminator.inputDependent_le ?_ ?_
    · rw [hseed]
      exact DeadCodeEliminator.inputSeed_subset_inputDependent p
    · intro i hi hc
      exact DeadCodeEliminator.inputDependent_closed p i (hmem' i hi).1 hc
  have hD : DeadCodeEliminator.inputDependent p' = DeadCodeEliminator.inputDependent p := by
    refine Finset.Subset.antisymm hDsub ?_
    refine DeadCodeEliminator.inputDependent_le ?_ ?_
    · rw [← hseed]
      exact DeadCodeEliminator.inputSeed_subset_inputDependent p'
    · intro i hi hc
      have hcD : ∃ v ∈ DeadCodeEliminator.getInputs i,
          v ∈ DeadCodeEliminator.inputDependent p := by
        obtain ⟨v, hv, hvs⟩ := hc
        exact ⟨v, hv, hDsub hvs⟩
      have hdest := DeadCodeEliminator.inputDependent_closed p i hi hcD
      have hused := DeadCodeEliminator.inputDependent_subset_usedValues p hdest
      have hi' : i ∈ p'.instructions :=
        List.mem_filter.mpr ⟨hi, decide_eq_true hused⟩
      exact DeadCodeEliminator.inputDependent_closed p' i hi' hc
  -- Phase 2 computes the same set on the filtered program.
  have hret : p'.return_value = p.return_value := rfl
  have hUsub : DeadCodeEliminator.usedValues p' ⊆ DeadCodeEliminator.usedValues p := by
    refine DeadCodeEliminator.usedValues_le ?_ ?_
    · rw [hret, hseed, hD]
      exact DeadCodeEliminator.usedValues_seed p
    · intro i hi hd v hv
      exact DeadCodeEliminator.usedValues_closed p i (hmem' i hi).1 hd v hv
  have hU : DeadCodeEliminator.usedValues p' = DeadCodeEliminator.usedValues p := by
    refine Finset.Subset.antisymm hUsub ?_
    refine DeadCodeEliminator.usedValues_le ?_ ?_
    · rw [← hret, ← hseed, ← hD]
      exact DeadCodeEliminator.usedValues_seed p'
    · intro i hi hd v hv
      have hi' : i ∈ p'.instructions :=
        List.mem_filter.mpr ⟨hi, decide_eq_true (hUsub hd)⟩
      exact DeadCodeEliminator.usedValues_closed p' i hi' hd v hv
  -- The second filter keeps everything.
  have hinstr : (DeadCodeEliminator.eliminate p').instructions = p'.instructions := by
    show p'.instructions.filter _ = p'.instructions
    refine List.filter_eq_self.mpr ?_
    intro i hi
    rw [hU]
    exact decide_eq_true (hmem' i hi).2
  exact congrArg
    (fun l => SsaProgram.mk l p.return_value p.public_inputs p.private_inputs) hinstr

/-- Claim C8, counterexample. The claim asserts that a circuit declaring a
private input, called with the `private` map entirely absent, fails with
`NoPrivateInputsProvided`.  The code checks *public* inputs first: for a
circuit declaring public `x` and private `secret`, called with both maps
absent, the error is `NoPublicInputsProvided`, not
`NoPrivateInputsProvided`. -/
theorem c8_counterexample :
    WitnessCalculator.calculateWitness
      ⟨[("x", ⟨0⟩)], [("secret", ⟨1⟩)], [], ⟨0⟩⟩ ⟨none, none⟩
      = .error .noPublicInputsProvided
    ∧ WitnessError.noPublicInputsProvided ≠ WitnessError.noPrivateInputsProvided :=
  ⟨by rfl, by decide⟩

/-- Claim C8, amended. Input-binding failures of `calculate_witness`:
the public-input statements hold unconditionally (public inputs are bound
first), the private-input statements hold provided the public binding
succeeded; in every case the error is produced before any gate executes
(the result is independent of the circuit's gate list). -/
theorem c8_input_binding_errors (c : Circuit) (inputs : InputFile) :
    (inputs.publicVals = none → c.public_inputs ≠ [] →
      ∀ gates' : List Gate,
        WitnessCalculator.calculateWitness { c with gates := gates' } inputs
          = .error .noPublicInputsProvided)
    ∧ (∀ pv, inputs.publicVals = some pv →
        (∃ nw ∈ c.public_inputs, alookup pv nw.1 = none) →
        ∃ n, (∃ w, (n, w) ∈ c.public_inputs) ∧ alookup pv n = none ∧
          ∀ gates' : List Gate,
            WitnessCalculator.calculateWitness { c with gates := gates' } inputs
              = .error (.missingPublicInput n))
    ∧ ((∃ m₁, WitnessCalculator.setPublicInputs c inputs [] = .ok m₁) →
        (inputs.privateVals = none → c.private_inputs ≠ [] →
          ∀ gates' : List Gate,
            WitnessCalculator.calculateWitness { c with gates := gates' } inputs
              = .error .noPrivateInputsProvided)
        ∧ (∀ pv, inputs.privateVals = some pv →
            (∃ nw ∈ c.private_inputs, alookup pv nw.1 = none) →
            ∃ n, (∃ w, (n, w) ∈ c.private_inputs) ∧ alookup pv n = none ∧
              ∀ gates' : List Gate,
                WitnessCalculator.calculateWitness { c with gates := gates' } inputs
                  = .error (.missingPrivateInput n))) := by
  have hpub : ∀ gates' : List Gate,
      WitnessCalculator.setPublicInputs { c with gates := gates' } inputs []
        = WitnessCalculator.setPublicInputs c inputs [] := fun _ => rfl
  refine ⟨?_, ?_, ?_⟩
  · intro hnone hne gates'
    apply WitnessCalculator.calculateWitness_error_of_setInputs
    have h1 : WitnessCalculator.setPublicInputs { c with gates := gates' } inputs []
        = .error .noPublicInputsProvided := by
      rw [hpub, WitnessCalculator.setPublicInputs, hnone]
      exact if_neg hne
    rw [WitnessCalculator.setInputs, h1]
  · intro pv hpv hex
    obtain ⟨n, hmem, hn, herr⟩ :=
      WitnessCalculator.bindInputs_missing WitnessError.missingPublicInput pv
        c.public_inputs hex
    refine ⟨n, hmem, hn, fun gates' => ?_⟩
    apply WitnessCalculator.calculateWitness_error_of_setInputs
    have h1 : WitnessCalculator.setPublicInputs { c with gates := gates' } inputs []
        = .error (.missingPublicInput n) := by
      rw [hpub, WitnessCalculator.setPublicInputs, hpv]
      exact herr []
    rw [WitnessCalculator.setInputs, h1]
  · rintro ⟨m₁, hm₁⟩
    have hsi : ∀ gates' : List Gate,
        WitnessCalculator.setInputs { c with gates := gates' } inputs []
          = WitnessCalculator.setPrivateInputs c inputs m₁ := by
      intro gates'
      rw [WitnessCalculator.setInputs, hpub, hm₁]
      rfl
    constructor
    · intro hnone hne gates'
      apply WitnessCalculator.calculateWitness_error_of_setInputs
      rw [hsi, WitnessCalculator.setPrivateInputs, hnone]
      exact if_neg hne
    · intro pv hpv hex
      obtain ⟨n, hmem, hn, herr⟩ :=
        WitnessCalculator.bindInputs_missing WitnessError.missingPrivateInput pv
          c.private_inputs hex
      refine ⟨n, hmem, hn, fun gates' => ?_⟩
      apply WitnessCalculator.calculateWitness_error_of_setInputs
      rw [hsi, WitnessCalculator.setPrivateInputs, hpv]
      exact herr m₁

/-- Witness for C8: a circuit declaring only the private input `secret`,
called with both maps absent, fails with `NoPrivateInputsProvided` (the
public binding trivially succeeds since no public inputs are declared). -/
theorem c8_input_binding_errors_witness :
    WitnessCalculator.calculateWitness
      ⟨[], [("secret", ⟨0⟩)], [], ⟨0⟩⟩ ⟨none, none⟩
      = .error .noPrivateInputsProvided :=
  ((c8_input_binding_errors ⟨[], [("secret", ⟨0⟩)], [], ⟨0⟩⟩ ⟨none, none⟩).2.2
    ⟨[], rfl⟩).1 rfl (by decide) []

/-- Claim C9. `SsaBuilder::convert` yields an `SsaProgram` exactly when the
input `Program` contains at least one `Return` statement; with no `Return`
the conversion is fatal (the `expect` panic, modelled as `none`) and no
partial program is produced. -/
theorem c9_convert_requires_return (p : Program) :
    (SsaBuilder.convert p).isSome ↔ ∃ e, Stmt.ret e ∈ p.statements := by
  unfold SsaBuilder.convert
  rcases hbr : SsaBuilder.convertLoop SsaBuilder.init none p.statements with ⟨b, r⟩
  have := SsaBuilder.convertLoop_snd_isSome p.statements SsaBuilder.init none
  rw [hbr] at this
  simpa using this

/-- Witness for C9: the one-statement program `return 7` converts
successfully. -/
theorem c9_convert_requires_return_witness :
    (SsaBuilder.convert ⟨[Stmt.ret (Expr.lit 7)]⟩).isSome :=
  (c9_convert_requires_return ⟨[Stmt.ret (Expr.lit 7)]⟩).mpr
    ⟨Expr.lit 7, List.mem_singleton.mpr rfl⟩

/-- Claim C10. Both optimization passes only touch the instruction list:
`return_value`, `public_inputs` and `private_inputs` are returned exactly
as they came in (in the source both functions rebuild the struct copying
these three fields verbatim). -/
theorem c10_optimizer_frame (p : SsaProgram) :
    (ConstantFolder.optimize p).return_value = p.return_value
    ∧ (ConstantFolder.optimize p).public_inputs = p.public_inputs
    ∧ (ConstantFolder.optimize p).private_inputs = p.private_inputs
    ∧ (DeadCodeEliminator.eliminate p).return_value = p.return_value
    ∧ (DeadCodeEliminator.eliminate p).public_inputs = p.public_inputs
    ∧ (DeadCodeEliminator.eliminate p).private_inputs = p.private_inputs :=
  ⟨rfl, rfl, rfl, rfl, rfl, rfl⟩

end CircuitCompiler
